import Mathlib

/-
Verification development for the real-time face tracking / recognition /
gating pipeline of the ryuk.ai repository.

Shallow embedding conventions:
  - The face tracker (src/components/face_tracker.py) works on numpy floats;
    it is embedded over the rationals.  The source compares Euclidean
    distances (np.linalg.norm) against bounds; since squaring is strictly
    monotone on nonnegative reals, the embedding tracks SQUARED distances and
    compares them against squared bounds, which yields exactly the same
    branch decisions as the source.
  - The recognition index (src/core/watchdog_indexer.py) L2‑normalizes
    vectors, which needs square roots, so it is embedded over the reals.
  - Wall-clock timestamps (time.time()) are passed to the embedded operations
    as an explicit `now` parameter; the source reads the clock at most a few
    microseconds apart inside one call, which the claims treat as one instant.
  - Redis keys with TTL are embedded as association lists from key to
    (absolute expiry time, value); redis `set(..., ex=ttl)` stores expiry
    now + ttl, and a key exists at time t iff t < expiry.
-/

set_option linter.unusedVariables false

namespace Ryuk

/-! ## Configuration constants (src/config.py) -/

/-- config.py: FAISS_THRESHOLD = 0.48 -/
noncomputable def FAISS_THRESHOLD : ℝ := 0.48

/-- config.py: MAX_POSES_PER_ID = 10.  Declared in config.py but never
referenced by any other module of the repository. -/
def MAX_POSES_PER_ID : Nat := 10

/-- config.py: AUTO_AUGMENT_MIN_SIM = 0.35.  Declared in config.py but never
referenced by any other module of the repository. -/
noncomputable def AUTO_AUGMENT_MIN_SIM : ℝ := 0.35

/-- config.py: AUTO_AUGMENT_TILT_DEG = 15.  Declared in config.py but never
referenced by any other module of the repository. -/
noncomputable def AUTO_AUGMENT_TILT_DEG : ℝ := 15

/-- config.py: FACE_MAX_INACTIVE_S = 2.0 -/
def FACE_MAX_INACTIVE_S : ℚ := 2

/-- config.py: FACE_TRACK_MAX_DIST = 150 -/
def FACE_TRACK_MAX_DIST : ℚ := 150

/-- config.py: FACE_TRACK_HISTORY = 5 -/
def FACE_TRACK_HISTORY : Nat := 5

/-- config.py: FACE_CACHE_TTL_S = 15 -/
def FACE_CACHE_TTL_S : Nat := 15

/-- config.py: ALERT_COOLDOWN_S = 10 -/
def ALERT_COOLDOWN_S : Nat := 10

/-- config.py: LOG_COOLDOWN_S = 120 -/
def LOG_COOLDOWN_S : Nat := 120

/-! ## Face tracker (src/components/face_tracker.py), over ℚ -/

/-- numpy astype(int) truncates toward zero. -/
def ratTrunc (x : ℚ) : ℤ := if 0 ≤ x then ⌊x⌋ else ⌈x⌉

/-- One InsightFace detection as consumed by FaceTracker.update: the raw
bounding box (4 numbers at inference scale), the 512‑d embedding, and the
optional landmark arrays (landmark_2d_106 as 2‑d points, landmark_3d_68 as
3‑d points). -/
structure FaceDet where
  bbox : List ℚ
  embedding : List ℚ
  lmk2d : Option (List (ℚ × ℚ))
  lmk3d : Option (List (ℚ × ℚ × ℚ))
deriving DecidableEq

/-- bbox = (face.bbox / inf_scale).astype(int), kept as rationals whose
values are the truncated integers. -/
def detBBox (f : FaceDet) (inf_scale : ℚ) : List ℚ :=
  f.bbox.map (fun x => ((ratTrunc (x / inf_scale) : ℤ) : ℚ))

/-- centroid = ((bbox[0]+bbox[2])/2, (bbox[1]+bbox[3])/2) -/
def bboxCentroid (b : List ℚ) : ℚ × ℚ :=
  ((b.getD 0 0 + b.getD 2 0) / 2, (b.getD 1 0 + b.getD 3 0) / 2)

/-- Squared Euclidean distance between two centroids.  The source computes
float(np.linalg.norm(centroid - track.centroid)) and compares it against
other distances and against the bound 150; all those comparisons are
equivalent to comparisons of the squares. -/
def distSq (a b : ℚ × ℚ) : ℚ := (a.1 - b.1) ^ 2 + (a.2 - b.2) ^ 2

/-- collections.deque(maxlen = cap): appending keeps only the last cap
elements (oldest dropped first).  The history list stores oldest first. -/
def dequeAppend (cap : Nat) (h : List (List ℚ)) (e : List ℚ) : List (List ℚ) :=
  let h2 := h ++ [e]
  h2.drop (h2.length - cap)

/-- Elementwise sum of a list of vectors (np.sum over axis 0). -/
def vecAdd (u v : List ℚ) : List ℚ := List.zipWith (· + ·) u v

def vecSum : List (List ℚ) → List ℚ
  | [] => []
  | v :: vs => vs.foldl vecAdd v

/-- np.mean(stack, axis=0): elementwise sum divided by the number of
vectors (numpy requires the stacked vectors to share one length). -/
def meanVecs (l : List (List ℚ)) : List ℚ :=
  (vecSum l).map (fun x => x / (l.length : ℚ))

/-- FaceTrack: state container for a single tracked face. -/
structure FaceTrack where
  track_id : Nat
  centroid : ℚ × ℚ
  last_seen : ℚ
  /-- deque of recent embeddings, oldest first, maxlen FACE_TRACK_HISTORY -/
  embedding_history : List (List ℚ)
  /-- last recognised identity dict; face_tracker.py only ever sets None -/
  id_cache : Option String
  smoothed_bbox : List ℚ
deriving DecidableEq

/-- FaceTrack.__init__ -/
def FaceTrack.init (tid : Nat) (c : ℚ × ℚ) (emb : List ℚ) (bbox : List ℚ)
    (now : ℚ) : FaceTrack :=
  { track_id := tid, centroid := c, last_seen := now,
    embedding_history := [emb], id_cache := none, smoothed_bbox := bbox }

/-- FaceTrack.update: replace centroid, refresh last_seen, append the
embedding to the bounded history, and exponentially smooth the bbox with
alpha = 0.3. -/
def FaceTrack.update (t : FaceTrack) (c : ℚ × ℚ) (emb : List ℚ)
    (bbox : List ℚ) (now : ℚ) : FaceTrack :=
  { t with
    centroid := c,
    last_seen := now,
    embedding_history := dequeAppend FACE_TRACK_HISTORY t.embedding_history emb,
    smoothed_bbox :=
      List.zipWith (fun n o => (3 / 10 : ℚ) * n + (1 - 3 / 10) * o)
        bbox t.smoothed_bbox }

/-- FaceTrack.avg_embedding: np.mean(self.embedding_history, axis=0). -/
def FaceTrack.avg_embedding (t : FaceTrack) : List ℚ :=
  meanVecs t.embedding_history

/-- FaceTrack.is_stale: (time.time() - self.last_seen) > FACE_MAX_INACTIVE_S. -/
def FaceTrack.is_stale (t : FaceTrack) (now : ℚ) : Bool :=
  decide (FACE_MAX_INACTIVE_S < now - t.last_seen)

/-- A sequence of FaceTrack.update calls on one track; each tuple carries
(centroid, embedding, bbox, now). -/
def FaceTrack.applyUpdates (t : FaceTrack)
    (ups : List ((ℚ × ℚ) × List ℚ × List ℚ × ℚ)) : FaceTrack :=
  ups.foldl (fun t u => t.update u.1 u.2.1 u.2.2.1 u.2.2.2) t

/-- FaceTracker state: the dict of active tracks (a Python dict preserves
insertion order, embedded as an association list) and the id counter. -/
structure FaceTracker where
  max_dist : ℚ
  max_inactive : ℚ
  tracks : List (Nat × FaceTrack)
  id_counter : Nat
deriving DecidableEq

/-- FaceTracker.__init__ with the config defaults. -/
def FaceTracker.init : FaceTracker :=
  { max_dist := FACE_TRACK_MAX_DIST, max_inactive := FACE_MAX_INACTIVE_S,
    tracks := [], id_counter := 0 }

/-- The nearest‑match scan of FaceTracker.update:
for tid, track in self._tracks.items(): skip used ids, keep the strictly
nearest so far (so the first minimizer wins ties), starting from
nearest_dist = self._max_dist.  The accumulator carries the matched entry
and the squared best distance. -/
def scanMatch (c : ℚ × ℚ) (used : List Nat) :
    List (Nat × FaceTrack) → Option (Nat × FaceTrack) → ℚ →
    Option (Nat × FaceTrack) × ℚ
  | [], best, bestD => (best, bestD)
  | p :: rest, best, bestD =>
    if p.1 ∈ used then scanMatch c used rest best bestD
    else if distSq c p.2.centroid < bestD then
      scanMatch c used rest (some p) (distSq c p.2.centroid)
    else scanMatch c used rest best bestD

/-- The match result for one detection: the nearest not-yet-used track
strictly within the distance bound, or none. -/
def findMatch (tracks : List (Nat × FaceTrack)) (used : List Nat)
    (c : ℚ × ℚ) (maxDist : ℚ) : Option (Nat × FaceTrack) :=
  (scanMatch c used tracks none (maxDist ^ 2)).1

/-- One entry of the list returned by FaceTracker.update
({ track_id, bbox, lmk2d, lmk3d, track }; raw_face is the input itself). -/
structure ParsedFace where
  track_id : Nat
  bbox : List ℚ
  lmk2d : Option (List (ℚ × ℚ))
  lmk3d : Option (List (ℚ × ℚ))
  track : FaceTrack
deriving DecidableEq

/-- self._tracks[matched_id].update(...): in-place update of one entry. -/
def replaceTrack (tracks : List (Nat × FaceTrack)) (tid : Nat)
    (t : FaceTrack) : List (Nat × FaceTrack) :=
  tracks.map (fun p => if p.1 = tid then (tid, t) else p)

/-- The body of the per-face loop of FaceTracker.update.  On a match the
matched id is added to used_ids and the track mutated in place; otherwise
the next id is allocated and a fresh track inserted (Python dict insertion
appends in iteration order). -/
def FaceTracker.updateOne (tr : FaceTracker) (used : List Nat)
    (face : FaceDet) (inf_scale : ℚ) (now : ℚ) :
    FaceTracker × List Nat × ParsedFace :=
  let bbox := detBBox face inf_scale
  let c := bboxCentroid bbox
  let lmk2d := face.lmk2d.map (List.map (fun q => (q.1 / inf_scale, q.2 / inf_scale)))
  let lmk3d := face.lmk3d.map (List.map (fun q => (q.1 / inf_scale, q.2.1 / inf_scale)))
  match findMatch tr.tracks used c tr.max_dist with
  | some m =>
    let t2 := m.2.update c face.embedding bbox now
    ({ tr with tracks := replaceTrack tr.tracks m.1 t2 },
     m.1 :: used,
     { track_id := m.1, bbox := bbox, lmk2d := lmk2d, lmk3d := lmk3d, track := t2 })
  | none =>
    let tid := tr.id_counter + 1
    let t2 := FaceTrack.init tid c face.embedding bbox now
    ({ tr with tracks := tr.tracks ++ [(tid, t2)], id_counter := tid },
     used,
     { track_id := tid, bbox := bbox, lmk2d := lmk2d, lmk3d := lmk3d, track := t2 })

/-- The per-face loop of FaceTracker.update, threading the tracker, the
used_ids set and the parsed output list through the detections in
detector-return order. -/
def FaceTracker.updateGo (inf_scale : ℚ) (now : ℚ) :
    List FaceDet → FaceTracker → List Nat → List ParsedFace →
    FaceTracker × List Nat × List ParsedFace
  | [], tr, used, acc => (tr, used, acc)
  | face :: rest, tr, used, acc =>
    let r := tr.updateOne used face inf_scale now
    FaceTracker.updateGo inf_scale now rest r.1 r.2.1 (acc ++ [r.2.2])

/-- FaceTracker.update(faces, inf_scale).  Besides the parsed list the
embedding also returns the final used_ids set (the ids matched this call),
which the source keeps in a local variable. -/
def FaceTracker.update (tr : FaceTracker) (faces : List FaceDet)
    (inf_scale : ℚ) (now : ℚ) : FaceTracker × List Nat × List ParsedFace :=
  FaceTracker.updateGo inf_scale now faces tr [] []

/-- FaceTracker.prune_stale: drop every track whose is_stale holds. -/
def FaceTracker.prune_stale (tr : FaceTracker) (now : ℚ) : FaceTracker :=
  { tr with tracks := tr.tracks.filter (fun p => ! p.2.is_stale now) }

/-- FaceTracker.get_avg_embedding: self._tracks.get(track_id) and the
average embedding of the track if present. -/
def FaceTracker.get_avg_embedding (tr : FaceTracker) (tid : Nat) :
    Option (List ℚ) :=
  (tr.tracks.lookup tid).map FaceTrack.avg_embedding

/-- FaceTracker.clear: self._tracks.clear(). -/
def FaceTracker.clear (tr : FaceTracker) : FaceTracker :=
  { tr with tracks := [] }

/-- Well-formedness maintained by the tracker: distinct track ids, all of
them positive and bounded by the id counter. -/
def FaceTracker.WF (tr : FaceTracker) : Prop :=
  (tr.tracks.map Prod.fst).Nodup ∧ ∀ p ∈ tr.tracks, p.1 ≤ tr.id_counter

/-! ## Key-value store with TTL and the cooldown gate

Redis keys written with set(key, value, ex=ttl) / setex: a key set at time
t0 with TTL ttl exists at time t iff t < t0 + ttl.  The store is an
association list from key to (absolute expiry, value); a set overwrites the
previous binding of the same key. -/

def KVStore (α : Type) : Type := List (String × Nat × α)

/-- cache.get(key): the stored value if the key has not expired. -/
def kvGet {α : Type} (s : KVStore α) (now : Nat) (k : String) : Option α :=
  match s.find? (fun p => p.1 == k) with
  | some p => if now < p.2.1 then some p.2.2 else none
  | none => none

/-- cache.set(key, v, ex = ttl): bind key to v with absolute expiry
now + ttl, dropping any previous binding. -/
def kvSet {α : Type} (s : KVStore α) (now ttl : Nat) (k : String) (v : α) :
    KVStore α :=
  (k, now + ttl, v) :: s.filter (fun p => ! (p.1 == k))

/-- The cooldown gate of the Gating Layer, as realized at its three call
sites (video_worker.py lines 183-187 and 197-200, watchdog_indexer.py
log_activity lines 200-221): check whether the lock key is present; if it is
absent, run the side effect and only then set the lock with its TTL; if it
is present, do nothing.  The side effect is modelled as a state transformer
f over an arbitrary effect-state type; the returned Bool records whether the
effect executed in this call. -/
def tryRun {α : Type} (f : α → α) (kv : KVStore String) (now ttl : Nat)
    (key : String) (a : α) : Bool × KVStore String × α :=
  if (kvGet kv now key).isSome then (false, kv, a)
  else (true, kvSet kv now ttl key "1", f a)

/-! ## Recognition index (src/core/watchdog_indexer.py), over ℝ -/

/-- Identity metadata row of the FAISS mapping (update_index lines 112-119). -/
structure Meta where
  aadhar : String
  name : String
  threat_level : String
  phone : String
  address : String
  photo_thumb : String
deriving DecidableEq

abbrev RVec := List ℝ

/-- Inner product of two embedding rows (faiss IndexFlatIP similarity). -/
def dotR (u v : RVec) : ℝ := (List.zipWith (· * ·) u v).sum

/-- Squared L2 norm. -/
def normSqR (v : RVec) : ℝ := dotR v v

/-- Pointwise difference of two rows of equal length. -/
def vecSubR (u v : RVec) : RVec := List.zipWith (· - ·) u v

/-- np.linalg.norm. -/
noncomputable def normR (v : RVec) : ℝ := Real.sqrt (normSqR v)

/-- recognize_face lines 187-189: norm = np.linalg.norm(embedding);
if norm > 0: embedding = embedding / norm.  numpy / allocates a fresh
array, so this is a pure operation. -/
noncomputable def normalizeVec (v : RVec) : RVec :=
  if 0 < normR v then v.map (fun x => x / normR v) else v

/-- The in-memory state of WatchdogIndexer relevant to recognition:
_faiss_index (None, or the row matrix added to faiss.IndexFlatIP(512)) and
_faiss_mapping, index-aligned. -/
structure IndexerState where
  faiss_index : Option (List RVec)
  faiss_mapping : List Meta

/-- The scan underlying faiss IndexFlatIP.search(query, k=1): keep the
first row attaining the maximum inner product (a later row replaces the
incumbent only on a strictly larger score).  k is the index of the next
row, (bi, bs) the incumbent. -/
noncomputable def searchAux (q : RVec) : List RVec → Nat → Nat → ℝ → Nat × ℝ
  | [], _, bi, bs => (bi, bs)
  | r :: rest, k, bi, bs =>
    if dotR q r > bs then searchAux q rest (k + 1) k (dotR q r)
    else searchAux q rest (k + 1) bi bs

/-- faiss search with k = 1 over a nonempty row set: the best (index, score)
pair; none on an empty row set. -/
noncomputable def searchTop1 (refs : List RVec) (q : RVec) : Option (Nat × ℝ) :=
  match refs with
  | [] => none
  | r :: rest => some (searchAux q rest 1 0 (dotR q r))

/-- WatchdogIndexer.recognize_face (lines 182-194): None when the index is
absent or empty; otherwise normalize the query (no-op on a zero vector),
search for the single best row by inner product, and return its mapping
entry iff the similarity strictly exceeds the threshold.  The source
indexes _faiss_mapping[idx] directly; the embedding uses get?, which agrees
whenever the index and mapping are aligned (the update_index invariant). -/
noncomputable def recognize_face (st : IndexerState) (embedding : RVec)
    (threshold : ℝ) : Option Meta :=
  match st.faiss_index with
  | none => none
  | some refs =>
    if refs.isEmpty then none
    else
      match searchTop1 refs (normalizeVec embedding) with
      | none => none
      | some (i, s) =>
        if s > threshold then st.faiss_mapping.get? i else none

/-- recognize_face with the state and the caller's embedding array threaded
explicitly, statement by statement: the method reads _faiss_index and
_faiss_mapping and never assigns any attribute, and the local rebinding
embedding = embedding / norm allocates a fresh numpy array (the in-place
form /= does not occur), so the caller's array comes back untouched. -/
noncomputable def recognize_face_run (st : IndexerState) (embedding : RVec)
    (threshold : ℝ) : Option Meta × IndexerState × RVec :=
  match st.faiss_index with
  | none => (none, st, embedding)
  | some refs =>
    if refs.isEmpty then (none, st, embedding)
    else
      let emb2 := normalizeVec embedding
      match searchTop1 refs emb2 with
      | none => (none, st, embedding)
      | some (i, s) =>
        ((if s > threshold then st.faiss_mapping.get? i else none), st, embedding)

/-- One MongoDB profile document as read by update_index. -/
structure ProfileDoc where
  aadhar : String
  name : String
  threat_level : String
  phone : String
  address : String
  photo_thumb : String
  embedding : RVec

def ProfileDoc.toMeta (d : ProfileDoc) : Meta :=
  ⟨d.aadhar, d.name, d.threat_level, d.phone, d.address, d.photo_thumb⟩

/-- update_index lines 104-131 (after the DB read): on an empty profile set
the index becomes None and the mapping empty; otherwise each row is divided
by its L2 norm, with zero norms replaced by 1 first
(np.where(norms == 0, 1.0, norms)), so a zero row stays the zero row. -/
noncomputable def update_index (docs : List ProfileDoc) : IndexerState :=
  match docs with
  | [] => { faiss_index := none, faiss_mapping := [] }
  | _ =>
    let rows := docs.map (fun d =>
      d.embedding.map (fun x =>
        x / (if normR d.embedding = 0 then 1 else normR d.embedding)))
    { faiss_index := some rows, faiss_mapping := docs.map ProfileDoc.toMeta }

/-! ## Enrollment (WatchdogIndexer.enroll_face, lines 134-180)

The image decode and the detector run are external collaborators; the
embedding starts from the detector's result list.  The thumbnail bytes are
produced by external cv2 calls wrapped in try/except (a failure leaves the
thumbnail empty and cannot abort enrollment), so they enter as a
parameter. -/

/-- A detector result as used by enroll_face: its embedding. -/
structure EnrollFace where
  embedding : RVec

/-- The two validation failures of enroll_face, raised as distinct
ValueError messages: "No faces detected." and
"Multiple faces in enrolment image.". -/
inductive EnrollError where
  | noFaces
  | multipleFaces
deriving DecidableEq

/-- A stored profile: the fields written by the update_one $set document. -/
structure StoredProfile where
  name : String
  threat_level : String
  phone : String
  address : String
  embedding : RVec
  photo_thumb : String

/-- The profiles collection keyed by the unique aadhar id. -/
abbrev ProfileStore := List (String × StoredProfile)

/-- update_one({"aadhar": aadhar}, {"$set": fields}, upsert=True): replace
the fields of the existing document with that key, or insert a new one. -/
def upsertProfile (store : ProfileStore) (aadhar : String)
    (p : StoredProfile) : ProfileStore :=
  if (store.lookup aadhar).isSome then
    store.map (fun q => if q.1 = aadhar then (aadhar, p) else q)
  else store ++ [(aadhar, p)]

def storeDocs (store : ProfileStore) : List ProfileDoc :=
  store.map (fun q =>
    ⟨q.1, q.2.name, q.2.threat_level, q.2.phone, q.2.address,
     q.2.photo_thumb, q.2.embedding⟩)

/-- enroll_face from the detector result on: zero faces and more than one
face raise before anything is written; exactly one face upserts the profile
by aadhar and then rebuilds the index from the store.  The profile store
and the index state are threaded to record what each outcome leaves
behind. -/
noncomputable def enroll_face (faces : List EnrollFace) (aadhar name
    threat_level phone address thumb : String) (store : ProfileStore)
    (idx : IndexerState) :
    Except EnrollError Unit × ProfileStore × IndexerState :=
  match faces with
  | [] => (Except.error EnrollError.noFaces, store, idx)
  | [f] =>
    let store2 := upsertProfile store aadhar
      ⟨name, threat_level, phone, address, f.embedding, thumb⟩
    (Except.ok (), store2, update_index (storeDocs store2))
  | _ :: _ :: _ => (Except.error EnrollError.multipleFaces, store, idx)

/-! ## The per-face recognition / logging / alert block of the inference job
(VideoProcessor.run, src/components/video_worker.py lines 157-211) -/

def vecAddR (u v : RVec) : RVec := List.zipWith (· + ·) u v

def vecSumR : List RVec → RVec
  | [] => []
  | v :: vs => vs.foldl vecAddR v

/-- np.mean(track['history'], axis=0) over real embeddings. -/
noncomputable def meanVecsR (l : List RVec) : RVec :=
  (vecSumR l).map (fun x => x / (l.length : ℝ))

/-- The externally visible side effects the job body can emit for one face:
the person_identified signal, the activity-log write, and the published
security alert.  augmentProfile is the effect the specification expects for
auto-augmentation (adding the embedding as an extra reference pose for the
identity); it is listed so that its absence can be stated. -/
inductive Effect where
  | personIdentified (m : Meta)
  | logActivity (aadhar client : String)
  | publishAlert (name client : String)
  | augmentProfile (aadhar : String) (emb : RVec)

def Effect.isAugment : Effect → Bool
  | Effect.augmentProfile _ _ => true
  | _ => false

/-- Values held in the worker's Redis cache: a cached identity JSON blob
(cache:face:*) or a plain "1" lock flag (log_lock:*, alert_lock:*). -/
inductive CacheVal where
  | jsonMeta (m : Meta)
  | flag

/-- video_worker.py lines 162-179: recognition with Redis caching.  On a
cache hit for the embedding hash the cached metadata is used; on a miss the
index is queried with the track's average embedding and threshold 0.45, and
a hit emits the person_identified signal and populates the cache with the
15 second TTL. -/
noncomputable def recCachePhase (idx : IndexerState) (kv : KVStore CacheVal)
    (now : Nat) (cacheKey : String) (history : List RVec) :
    Option Meta × KVStore CacheVal × List Effect :=
  match kvGet kv now cacheKey with
  | some (CacheVal.jsonMeta m) => (some m, kv, [])
  | _ =>
    match recognize_face idx (meanVecsR history) 0.45 with
    | some m =>
      (some m, kvSet kv now FACE_CACHE_TTL_S cacheKey (CacheVal.jsonMeta m),
       [Effect.personIdentified m])
    | none => (none, kv, [])

/-- video_worker.py lines 182-187: the gated activity log (lock key
log_lock:{aadhar}:{client}, TTL 30 s).  aadhar = meta.get('aadhar') with a
Python truthiness test, so an empty aadhar skips logging. -/
def logPhase (kv1 : KVStore CacheVal) (now : Nat) (clientId : String)
    (meta : Option Meta) (effs1 : List Effect) :
    KVStore CacheVal × List Effect :=
  match meta with
  | some m =>
    if m.aadhar ≠ "" then
      if (kvGet kv1 now ("log_lock:" ++ m.aadhar ++ ":" ++ clientId)).isNone then
        (kvSet kv1 now 30 ("log_lock:" ++ m.aadhar ++ ":" ++ clientId)
          CacheVal.flag,
         effs1 ++ [Effect.logActivity m.aadhar clientId])
      else (kv1, effs1)
    else (kv1, effs1)
  | none => (kv1, effs1)

/-- video_worker.py lines 189-200: the gated high-threat alert (lock key
alert_lock:{name}:{client}, TTL 10 s). -/
def alertPhase (kv2 : KVStore CacheVal) (now : Nat) (clientId : String)
    (name threat : String) (effs2 : List Effect) :
    KVStore CacheVal × List Effect :=
  if threat = "High" then
    if (kvGet kv2 now ("alert_lock:" ++ name ++ ":" ++ clientId)).isNone then
      (kvSet kv2 now ALERT_COOLDOWN_S ("alert_lock:" ++ name ++ ":" ++ clientId)
        CacheVal.flag,
       effs2 ++ [Effect.publishAlert name clientId])
    else (kv2, effs2)
  else (kv2, effs2)

/-- video_worker.py lines 157-211, for one face binding: recognition with
Redis caching (md5 of the embedding bytes as cache key, modelled by the
external hash function hashHex), then the gated activity log, then the
gated high-threat alert.  pose carries the detection's yaw/pitch/roll when
the detector exposes them; the block never reads it.  Returns the rendered
(name, threat) pair, the cache state after the call, and the side effects
emitted. -/
noncomputable def processFace (idx : IndexerState) (kv : KVStore CacheVal)
    (now : Nat) (clientId : String) (hashHex : RVec → String) (emb : RVec)
    (pose : Option (ℝ × ℝ × ℝ)) (history : List RVec) :
    (String × String) × KVStore CacheVal × List Effect :=
  let r := recCachePhase idx kv now ("cache:face:" ++ hashHex emb) history
  let name := match r.1 with | some m => m.name | none => "Unknown"
  let threat := match r.1 with | some m => m.threat_level | none => "Low"
  let lg := logPhase r.2.1 now clientId r.1 r.2.2
  let al := alertPhase lg.1 now clientId name threat lg.2
  ((name, threat), al.1, al.2)

end Ryuk

namespace Ryuk

/-! ## Key-value / gating lemmas -/

theorem kvGet_kvSet_self {α : Type} (s : KVStore α) (now ttl t : Nat)
    (k : String) (v : α) :
    kvGet (kvSet s now ttl k v) t k = if t < now + ttl then some v else none := by
  simp [kvGet, kvSet, List.find?]

/-- C3: For a fixed (effect-kind, identity, source) key, two gated effect
invocations within the lock TTL window execute the underlying effect
exactly once (the second call finds the lock and does nothing), and a third
invocation after the TTL has expired executes the effect again; each
executing call runs the effect and only then sets the lock with its TTL,
while a blocked call leaves both the store and the effect state
untouched. -/
theorem tryRun_cooldown_window {α : Type} (f : α → α) (kv : KVStore String)
    (key : String) (ttl t1 t2 t3 : Nat) (a : α)
    (h0 : kvGet kv t1 key = none)
    (h12 : t1 ≤ t2) (h2 : t2 < t1 + ttl) (h3 : t1 + ttl ≤ t3) :
    (tryRun f kv t1 ttl key a).1 = true
    ∧ (tryRun f kv t1 ttl key a).2 = (kvSet kv t1 ttl key "1", f a)
    ∧ (tryRun f (kvSet kv t1 ttl key "1") t2 ttl key (f a)).1 = false
    ∧ (tryRun f (kvSet kv t1 ttl key "1") t2 ttl key (f a)).2 =
        (kvSet kv t1 ttl key "1", f a)
    ∧ (tryRun f (kvSet kv t1 ttl key "1") t3 ttl key (f a)).1 = true
    ∧ (tryRun f (kvSet kv t1 ttl key "1") t3 ttl key (f a)).2.2 = f (f a) := by
  have g2 : kvGet (kvSet kv t1 ttl key "1") t2 key = some "1" := by
    rw [kvGet_kvSet_self]; simp [h2]
  have g3 : kvGet (kvSet kv t1 ttl key "1") t3 key = none := by
    rw [kvGet_kvSet_self]; simp [Nat.not_lt.mpr h3]
  refine ⟨?_, ?_, ?_, ?_, ?_, ?_⟩ <;> simp [tryRun, h0, g2, g3]

/-- Concrete run of the cooldown gate: key absent, calls at times 0, 50 and
120 with TTL 120; the effect (a counter increment) runs at the first and
third call only. -/
theorem tryRun_cooldown_window_witness :
    (tryRun Nat.succ [] 0 120 "cooldown:log:A:cam1" 0).1 = true
    ∧ (tryRun Nat.succ (kvSet [] 0 120 "cooldown:log:A:cam1" "1") 50 120
        "cooldown:log:A:cam1" 1).1 = false
    ∧ (tryRun Nat.succ (kvSet [] 0 120 "cooldown:log:A:cam1" "1") 120 120
        "cooldown:log:A:cam1" 1).2.2 = 2 := by
  have h := tryRun_cooldown_window Nat.succ [] "cooldown:log:A:cam1" 120
    0 50 120 0 (by decide) (by decide) (by decide) (by decide)
  exact ⟨h.1, h.2.2.1, h.2.2.2.2.2⟩

/-! ## Prune lemmas -/

/-- C5: prune_stale removes exactly the tracks whose elapsed time since
last_seen strictly exceeds the inactivity timeout (a track survives iff
now - last_seen is at most FACE_MAX_INACTIVE_S = 2.0), every surviving
entry is the original entry unchanged in every field and in store order,
and the id counter and configuration are untouched. -/
theorem prune_stale_exact (tr : FaceTracker) (now : ℚ) :
    (∀ q : Nat × FaceTrack,
        q ∈ (tr.prune_stale now).tracks ↔
          q ∈ tr.tracks ∧ now - q.2.last_seen ≤ FACE_MAX_INACTIVE_S)
    ∧ (tr.prune_stale now).tracks.Sublist tr.tracks
    ∧ (tr.prune_stale now).id_counter = tr.id_counter
    ∧ (tr.prune_stale now).max_dist = tr.max_dist
    ∧ (tr.prune_stale now).max_inactive = tr.max_inactive := by
  refine ⟨fun q => ?_, List.filter_sublist _, rfl, rfl, rfl⟩
  simp [FaceTracker.prune_stale, List.mem_filter, FaceTrack.is_stale, not_lt]

/-- Concrete prune run: of two tracks last seen at 9 and 0, pruning at time
10 keeps exactly the first (elapsed 1 <= 2) and drops the second
(elapsed 10 > 2), leaving the kept entry identical. -/
theorem prune_stale_exact_witness :
    ((1, FaceTrack.init 1 (0, 0) [1] [0, 0, 1, 1] 9) ∈
      ((FaceTracker.mk 150 2
        [(1, FaceTrack.init 1 (0, 0) [1] [0, 0, 1, 1] 9),
         (2, FaceTrack.init 2 (5, 5) [2] [0, 0, 1, 1] 0)] 2).prune_stale 10).tracks)
    ∧ ¬ ((2, FaceTrack.init 2 (5, 5) [2] [0, 0, 1, 1] 0) ∈
      ((FaceTracker.mk 150 2
        [(1, FaceTrack.init 1 (0, 0) [1] [0, 0, 1, 1] 9),
         (2, FaceTrack.init 2 (5, 5) [2] [0, 0, 1, 1] 0)] 2).prune_stale 10).tracks) := by
  constructor
  · exact ((prune_stale_exact _ 10).1 _).mpr
      ⟨List.mem_cons_self _ _, by norm_num [FaceTrack.init, FACE_MAX_INACTIVE_S]⟩
  · intro h
    have h2 := (((prune_stale_exact _ 10).1 _).mp h).2
    norm_num [FaceTrack.init, FACE_MAX_INACTIVE_S] at h2

/-! ## Auto-augmentation is absent from the job body -/

/-- C4: the claim says a recognized identity whose raw detection exposes
pose angles with any of yaw/pitch/roll over the tilt threshold has its
embedding passed to the Gating Layer for auto-augmentation.  The code has
no such path: the per-face job body emits recognition, logging and alert
effects only and never an augmentProfile effect, for every input — in
particular for a recognized, tilted detection.  AUTO_AUGMENT_TILT_DEG,
AUTO_AUGMENT_MIN_SIM and MAX_POSES_PER_ID exist in config.py but no module
reads them. -/
theorem processFace_never_augments (idx : IndexerState) (kv : KVStore CacheVal)
    (now : Nat) (clientId : String) (hashHex : RVec → String) (emb : RVec)
    (pose : Option (ℝ × ℝ × ℝ)) (history : List RVec) :
    ((processFace idx kv now clientId hashHex emb pose history).2.2.all
      (fun e => ! e.isAugment)) = true := by
  have hrec : ∀ (st : IndexerState) (kv0 : KVStore CacheVal) (n : Nat)
      (ck : String) (hist : List RVec),
      ((recCachePhase st kv0 n ck hist).2.2.all (fun e => ! e.isAugment)) = true := by
    intro st kv0 n ck hist
    unfold recCachePhase
    repeat' split <;> simp [Effect.isAugment]
  have happ : ∀ (effs : List Effect) (e : Effect), e.isAugment = false →
      (effs.all (fun x => ! x.isAugment)) = true →
      ((effs ++ [e]).all (fun x => ! x.isAugment)) = true := by
    intro effs e he h
    rw [List.all_append]
    simp_all
  have hlog : ∀ (kv1 : KVStore CacheVal) (n : Nat) (cid : String)
      (meta : Option Meta) (effs : List Effect),
      (effs.all (fun e => ! e.isAugment)) = true →
      ((logPhase kv1 n cid meta effs).2.all (fun e => ! e.isAugment)) = true := by
    intro kv1 n cid meta effs h
    unfold logPhase
    repeat' split
    all_goals first
      | exact h
      | exact happ _ _ rfl h
  have halert : ∀ (kv2 : KVStore CacheVal) (n : Nat) (cid : String)
      (nm th : String) (effs : List Effect),
      (effs.all (fun e => ! e.isAugment)) = true →
      ((alertPhase kv2 n cid nm th effs).2.all (fun e => ! e.isAugment)) = true := by
    intro kv2 n cid nm th effs h
    unfold alertPhase
    repeat' split
    all_goals first
      | exact h
      | exact happ _ _ rfl h
  exact halert _ _ _ _ _ _ (hlog _ _ _ _ _ (hrec _ _ _ _ _))

/-! ## Nearest-match scan characterization -/

/-- Full characterization of the nearest-match scan: either nothing beats
the incumbent (every unused candidate is at least bestD away) and the
accumulator is returned, or the scan returns the first candidate attaining
the strictly smallest distance below bestD: every unused candidate before
it is strictly farther, every unused candidate after it no closer. -/
theorem scanMatch_spec (c : ℚ × ℚ) (used : List Nat) :
    ∀ (l : List (Nat × FaceTrack)) (best : Option (Nat × FaceTrack)) (bestD : ℚ),
      (scanMatch c used l best bestD = (best, bestD) ∧
        ∀ p ∈ l, p.1 ∉ used → bestD ≤ distSq c p.2.centroid)
      ∨ (∃ l1 p l2, l = l1 ++ p :: l2 ∧ p.1 ∉ used ∧
          scanMatch c used l best bestD = (some p, distSq c p.2.centroid) ∧
          distSq c p.2.centroid < bestD ∧
          (∀ q ∈ l1, q.1 ∉ used → distSq c p.2.centroid < distSq c q.2.centroid) ∧
          (∀ q ∈ l2, q.1 ∉ used → distSq c p.2.centroid ≤ distSq c q.2.centroid)) := by
  intro l
  induction l with
  | nil =>
    intro best bestD
    left
    exact ⟨rfl, by simp⟩
  | cons p rest ih =>
    intro best bestD
    by_cases hu : p.1 ∈ used
    · rcases ih best bestD with ⟨heq, hall⟩ | ⟨l1, q, l2, hsplit, hq, heq, hlt, h1, h2⟩
      · left
        refine ⟨by simp [scanMatch, hu, heq], ?_⟩
        intro r hr hru
        rcases List.mem_cons.mp hr with rfl | hr2
        · exact absurd hu hru
        · exact hall r hr2 hru
      · right
        refine ⟨p :: l1, q, l2, by rw [hsplit, List.cons_append], hq,
          by simp [scanMatch, hu, heq], hlt, ?_, h2⟩
        intro r hr hru
        rcases List.mem_cons.mp hr with rfl | hr2
        · exact absurd hu hru
        · exact h1 r hr2 hru
    · by_cases hd : distSq c p.2.centroid < bestD
      · rcases ih (some p) (distSq c p.2.centroid) with
          ⟨heq, hall⟩ | ⟨l1, q, l2, hsplit, hq, heq, hlt, h1, h2⟩
        · right
          exact ⟨[], p, rest, rfl, hu, by simp [scanMatch, hu, hd, heq], hd,
            by simp, fun r hr hru => hall r hr hru⟩
        · right
          refine ⟨p :: l1, q, l2, by rw [hsplit, List.cons_append], hq,
            by simp [scanMatch, hu, hd, heq], lt_trans hlt hd, ?_, h2⟩
          intro r hr hru
          rcases List.mem_cons.mp hr with rfl | hr2
          · exact hlt
          · exact h1 r hr2 hru
      · rcases ih best bestD with ⟨heq, hall⟩ | ⟨l1, q, l2, hsplit, hq, heq, hlt, h1, h2⟩
        · left
          refine ⟨by simp [scanMatch, hu, hd, heq], ?_⟩
          intro r hr hru
          rcases List.mem_cons.mp hr with rfl | hr2
          · exact not_lt.mp hd
          · exact hall r hr2 hru
        · right
          refine ⟨p :: l1, q, l2, by rw [hsplit, List.cons_append], hq,
            by simp [scanMatch, hu, hd, heq], hlt, ?_, h2⟩
          intro r hr hru
          rcases List.mem_cons.mp hr with rfl | hr2
          · exact lt_of_lt_of_le hlt (not_lt.mp hd)
          · exact h1 r hr2 hru

/-- A successful match is an unused track of the store, strictly within the
distance bound, at minimal distance among the unused tracks, and the first
such minimizer in encounter order. -/
theorem findMatch_some_spec (tracks : List (Nat × FaceTrack)) (used : List Nat)
    (c : ℚ × ℚ) (maxDist : ℚ) (m : Nat × FaceTrack)
    (h : findMatch tracks used c maxDist = some m) :
    m ∈ tracks ∧ m.1 ∉ used ∧ distSq c m.2.centroid < maxDist ^ 2 ∧
    (∀ q ∈ tracks, q.1 ∉ used → distSq c m.2.centroid ≤ distSq c q.2.centroid) ∧
    ∃ l1 l2, tracks = l1 ++ m :: l2 ∧
      ∀ q ∈ l1, q.1 ∉ used → distSq c m.2.centroid < distSq c q.2.centroid := by
  rcases scanMatch_spec c used tracks none (maxDist ^ 2) with
    ⟨heq, _⟩ | ⟨l1, p, l2, hsplit, hp, heq, hlt, h1, h2⟩
  · rw [findMatch, heq] at h
    exact absurd h (by simp)
  · rw [findMatch, heq] at h
    obtain rfl : p = m := by simpa using h
    subst hsplit
    refine ⟨by simp, hp, hlt, ?_, l1, l2, rfl, h1⟩
    intro q hq hqu
    rcases List.mem_append.mp hq with hq1 | hq2
    · exact le_of_lt (h1 q hq1 hqu)
    · rcases List.mem_cons.mp hq2 with rfl | hq3
      · exact le_refl _
      · exact h2 q hq3 hqu

/-- The scan yields no match exactly when every unused track is at least
the bound away (squared comparison). -/
theorem findMatch_none_iff (tracks : List (Nat × FaceTrack)) (used : List Nat)
    (c : ℚ × ℚ) (maxDist : ℚ) :
    findMatch tracks used c maxDist = none ↔
      ∀ q ∈ tracks, q.1 ∉ used → maxDist ^ 2 ≤ distSq c q.2.centroid := by
  constructor
  · intro h
    rcases scanMatch_spec c used tracks none (maxDist ^ 2) with
      ⟨heq, hall⟩ | ⟨l1, p, l2, hsplit, hp, heq, hlt, h1, h2⟩
    · exact hall
    · rw [findMatch, heq] at h
      exact absurd h (by simp)
  · intro hall
    rcases scanMatch_spec c used tracks none (maxDist ^ 2) with
      ⟨heq, _⟩ | ⟨l1, p, l2, hsplit, hp, heq, hlt, h1, h2⟩
    · rw [findMatch, heq]
    · exact absurd (hall p (by rw [hsplit]; simp) hp) (not_le.mpr hlt)

/-! ## Update invariants -/

theorem replaceTrack_map_fst (tracks : List (Nat × FaceTrack)) (tid : Nat)
    (t : FaceTrack) :
    (replaceTrack tracks tid t).map Prod.fst = tracks.map Prod.fst := by
  induction tracks with
  | nil => rfl
  | cons p rest ih =>
    simp only [replaceTrack, List.map_cons] at ih ⊢
    by_cases h : p.1 = tid
    · simp [h, ih]
    · simp [h, ih]

/-- The matched branch of the per-face body, spelled out. -/
theorem updateOne_matched (tr : FaceTracker) (used : List Nat) (face : FaceDet)
    (s now : ℚ) (m : Nat × FaceTrack)
    (h : findMatch tr.tracks used (bboxCentroid (detBBox face s)) tr.max_dist
        = some m) :
    tr.updateOne used face s now =
      ({ tr with
          tracks :=
            replaceTrack tr.tracks m.1
              (m.2.update (bboxCentroid (detBBox face s)) face.embedding
                (detBBox face s) now) },
       m.1 :: used,
       { track_id := m.1, bbox := detBBox face s,
         lmk2d := face.lmk2d.map (List.map (fun q => (q.1 / s, q.2 / s))),
         lmk3d := face.lmk3d.map (List.map (fun q => (q.1 / s, q.2.1 / s))),
         track :=
           m.2.update (bboxCentroid (detBBox face s)) face.embedding
             (detBBox face s) now }) := by
  simp [FaceTracker.updateOne, h]

/-- The unmatched branch of the per-face body, spelled out. -/
theorem updateOne_new (tr : FaceTracker) (used : List Nat) (face : FaceDet)
    (s now : ℚ)
    (h : findMatch tr.tracks used (bboxCentroid (detBBox face s)) tr.max_dist
        = none) :
    tr.updateOne used face s now =
      ({ tr with
          tracks :=
            tr.tracks ++ [(tr.id_counter + 1,
              FaceTrack.init (tr.id_counter + 1) (bboxCentroid (detBBox face s))
                face.embedding (detBBox face s) now)],
          id_counter := tr.id_counter + 1 },
       used,
       { track_id := tr.id_counter + 1, bbox := detBBox face s,
         lmk2d := face.lmk2d.map (List.map (fun q => (q.1 / s, q.2 / s))),
         lmk3d := face.lmk3d.map (List.map (fun q => (q.1 / s, q.2.1 / s))),
         track :=
           FaceTrack.init (tr.id_counter + 1) (bboxCentroid (detBBox face s))
             face.embedding (detBBox face s) now }) := by
  simp [FaceTracker.updateOne, h]

/-- Combined invariant of the per-face loop: well-formedness is preserved,
the id counter never decreases, the matched-id set stays duplicate-free,
every id in the final store is an old id or is fresh above the initial
counter, old ids are never dropped during the loop, every output binding
carries an id present in the final store, and there is exactly one output
binding per detection. -/
theorem updateGo_inv (s now : ℚ) :
    ∀ (faces : List FaceDet) (tr : FaceTracker) (used : List Nat)
      (acc : List ParsedFace), tr.WF → used.Nodup →
      (FaceTracker.updateGo s now faces tr used acc).1.WF
      ∧ tr.id_counter ≤ (FaceTracker.updateGo s now faces tr used acc).1.id_counter
      ∧ (FaceTracker.updateGo s now faces tr used acc).2.1.Nodup
      ∧ (∀ id, id ∈ ((FaceTracker.updateGo s now faces tr used acc).1.tracks.map
            Prod.fst) →
          id ∈ tr.tracks.map Prod.fst ∨ tr.id_counter < id)
      ∧ (∀ id, id ∈ tr.tracks.map Prod.fst →
          id ∈ ((FaceTracker.updateGo s now faces tr used acc).1.tracks.map
            Prod.fst))
      ∧ (∀ p ∈ (FaceTracker.updateGo s now faces tr used acc).2.2,
          p ∈ acc ∨ p.track_id ∈
            ((FaceTracker.updateGo s now faces tr used acc).1.tracks.map Prod.fst))
      ∧ (FaceTracker.updateGo s now faces tr used acc).2.2.length =
          acc.length + faces.length := by
  intro faces
  induction faces with
  | nil =>
    intro tr used acc hwf hnd
    exact ⟨hwf, le_refl _, hnd, fun id h => Or.inl h, fun id h => h,
      fun p hp => Or.inl hp, by simp [FaceTracker.updateGo]⟩
  | cons face rest ih =>
    intro tr used acc hwf hnd
    have hgo : FaceTracker.updateGo s now (face :: rest) tr used acc =
        FaceTracker.updateGo s now rest (tr.updateOne used face s now).1
          (tr.updateOne used face s now).2.1
          (acc ++ [(tr.updateOne used face s now).2.2]) := rfl
    cases hfm : findMatch tr.tracks used (bboxCentroid (detBBox face s))
        tr.max_dist with
    | some m =>
      obtain ⟨hmem, hmu, hdist, hmin, _⟩ := findMatch_some_spec _ _ _ _ _ hfm
      have hstep := updateOne_matched tr used face s now m hfm
      have hc1 : (tr.updateOne used face s now).1.tracks =
          replaceTrack tr.tracks m.1
            (m.2.update (bboxCentroid (detBBox face s)) face.embedding
              (detBBox face s) now) := by rw [hstep]
      have hc2 : (tr.updateOne used face s now).1.id_counter = tr.id_counter := by
        rw [hstep]
      have hc3 : (tr.updateOne used face s now).2.1 = m.1 :: used := by rw [hstep]
      have hc4 : (tr.updateOne used face s now).2.2.track_id = m.1 := by rw [hstep]
      have hmap : (tr.updateOne used face s now).1.tracks.map Prod.fst =
          tr.tracks.map Prod.fst := by
        rw [hc1]; exact replaceTrack_map_fst tr.tracks m.1 _
      have hwf2 : (tr.updateOne used face s now).1.WF := by
        refine ⟨by rw [hmap]; exact hwf.1, ?_⟩
        intro p hp
        have hpm : p.1 ∈ (tr.updateOne used face s now).1.tracks.map Prod.fst :=
          List.mem_map_of_mem _ hp
        rw [hmap] at hpm
        obtain ⟨q, hq, hq2⟩ := List.mem_map.mp hpm
        have := hwf.2 q hq
        rw [hc2]
        omega
      have hnd2 : (tr.updateOne used face s now).2.1.Nodup := by
        rw [hc3]; exact List.nodup_cons.mpr ⟨hmu, hnd⟩
      obtain ⟨w1, w2, w3, w4, w5, w6, w7⟩ := ih (tr.updateOne used face s now).1
        (tr.updateOne used face s now).2.1
        (acc ++ [(tr.updateOne used face s now).2.2]) hwf2 hnd2
      rw [hgo]
      refine ⟨w1, by rw [hc2] at w2; exact w2, w3, ?_, ?_, ?_, ?_⟩
      · intro id hid
        rcases w4 id hid with h1 | h2
        · rw [hmap] at h1; exact Or.inl h1
        · rw [hc2] at h2; exact Or.inr h2
      · intro id hid
        exact w5 id (by rw [hmap]; exact hid)
      · intro p hp
        rcases w6 p hp with h1 | h2
        · rcases List.mem_append.mp h1 with ha | hb
          · exact Or.inl ha
          · right
            rw [List.mem_singleton.mp hb, hc4]
            exact w5 m.1 (by rw [hmap]; exact List.mem_map_of_mem _ hmem)
        · exact Or.inr h2
      · rw [w7]; simp; omega
    | none =>
      have hstep := updateOne_new tr used face s now hfm
      have hc1 : (tr.updateOne used face s now).1.tracks =
          tr.tracks ++ [(tr.id_counter + 1,
            FaceTrack.init (tr.id_counter + 1) (bboxCentroid (detBBox face s))
              face.embedding (detBBox face s) now)] := by rw [hstep]
      have hc2 : (tr.updateOne used face s now).1.id_counter =
          tr.id_counter + 1 := by rw [hstep]
      have hc3 : (tr.updateOne used face s now).2.1 = used := by rw [hstep]
      have hc4 : (tr.updateOne used face s now).2.2.track_id =
          tr.id_counter + 1 := by rw [hstep]
      have hmap : (tr.updateOne used face s now).1.tracks.map Prod.fst =
          tr.tracks.map Prod.fst ++ [tr.id_counter + 1] := by
        rw [hc1]; simp
      have hfresh : tr.id_counter + 1 ∉ tr.tracks.map Prod.fst := by
        intro hmem
        obtain ⟨q, hq, hq2⟩ := List.mem_map.mp hmem
        have := hwf.2 q hq
        omega
      have hwf2 : (tr.updateOne used face s now).1.WF := by
        constructor
        · rw [hmap]
          simp [List.nodup_append, hwf.1, hfresh]
        · intro p hp
          rw [hc1] at hp
          rw [hc2]
          rcases List.mem_append.mp hp with h1 | h2
          · have := hwf.2 p h1; omega
          · rw [List.mem_singleton.mp h2]
      have hnd2 : (tr.updateOne used face s now).2.1.Nodup := by
        rw [hc3]; exact hnd
      obtain ⟨w1, w2, w3, w4, w5, w6, w7⟩ := ih (tr.updateOne used face s now).1
        (tr.updateOne used face s now).2.1
        (acc ++ [(tr.updateOne used face s now).2.2]) hwf2 hnd2
      rw [hgo]
      refine ⟨w1, by rw [hc2] at w2; omega, w3, ?_, ?_, ?_, ?_⟩
      · intro id hid
        rcases w4 id hid with h1 | h2
        · rw [hmap] at h1
          rcases List.mem_append.mp h1 with ha | hb
          · exact Or.inl ha
          · have : id = tr.id_counter + 1 := List.mem_singleton.mp hb
            omega
        · rw [hc2] at h2; right; omega
      · intro id hid
        exact w5 id (by rw [hmap]; exact List.mem_append_left _ hid)
      · intro p hp
        rcases w6 p hp with h1 | h2
        · rcases List.mem_append.mp h1 with ha | hb
          · exact Or.inl ha
          · right
            rw [List.mem_singleton.mp hb, hc4]
            exact w5 (tr.id_counter + 1)
              (by rw [hmap]; exact List.mem_append_right _ (by simp))
        · exact Or.inr h2
      · rw [w7]; simp; omega

/-! ## Embedding history and average -/

theorem dequeAppend_length (cap : Nat) (h : List (List ℚ)) (e : List ℚ) :
    (dequeAppend cap h e).length = min (h.length + 1) cap := by
  simp [dequeAppend]
  omega

/-- Across any run of updates the history is exactly the suffix of the
appended embeddings that fits the capacity. -/
theorem applyUpdates_history :
    ∀ (ups : List ((ℚ × ℚ) × List ℚ × List ℚ × ℚ)) (t : FaceTrack),
      t.embedding_history.length ≤ FACE_TRACK_HISTORY →
      (t.applyUpdates ups).embedding_history =
        (t.embedding_history ++ ups.map (fun u => u.2.1)).drop
          ((t.embedding_history ++ ups.map (fun u => u.2.1)).length
            - FACE_TRACK_HISTORY) := by
  intro ups
  induction ups with
  | nil =>
    intro t ht
    simp [FaceTrack.applyUpdates, Nat.sub_eq_zero_of_le ht]
  | cons u rest ih =>
    intro t ht
    have hstep : t.applyUpdates (u :: rest) =
        (t.update u.1 u.2.1 u.2.2.1 u.2.2.2).applyUpdates rest := rfl
    have hhist : (t.update u.1 u.2.1 u.2.2.1 u.2.2.2).embedding_history =
        dequeAppend FACE_TRACK_HISTORY t.embedding_history u.2.1 := rfl
    have hlen2 : (t.update u.1 u.2.1 u.2.2.1 u.2.2.2).embedding_history.length
        ≤ FACE_TRACK_HISTORY := by
      rw [hhist, dequeAppend_length]
      omega
    rw [hstep, ih _ hlen2, hhist]
    have hda : dequeAppend FACE_TRACK_HISTORY t.embedding_history u.2.1 =
        (t.embedding_history ++ [u.2.1]).drop
          ((t.embedding_history ++ [u.2.1]).length - FACE_TRACK_HISTORY) := rfl
    rw [hda]
    have hd : (t.embedding_history ++ [u.2.1]).length - FACE_TRACK_HISTORY ≤
        (t.embedding_history ++ [u.2.1]).length := Nat.sub_le _ _
    rw [← List.drop_append_of_le_length hd, List.drop_drop]
    have hassoc : (t.embedding_history ++ [u.2.1]) ++ rest.map (fun u => u.2.1)
        = t.embedding_history ++ (u.2.1 :: rest.map (fun u => u.2.1)) := by
      simp
    rw [hassoc]
    congr 1
    simp only [List.length_drop, List.length_append, List.length_cons,
      List.length_map, List.length_nil]
    omega

theorem vecAdd_getD (u v : List ℚ) (d j : Nat) (hu : u.length = d)
    (hv : v.length = d) (hj : j < d) :
    (vecAdd u v).getD j 0 = u.getD j 0 + v.getD j 0 := by
  have hl : (vecAdd u v).length = d := by simp [vecAdd, hu, hv]
  rw [List.getD_eq_getElem _ _ (by omega), List.getD_eq_getElem _ _ (by omega),
    List.getD_eq_getElem _ _ (by omega)]
  simp [vecAdd]

/-- The elementwise sum has the common length and computes per-coordinate
sums. -/
theorem vecSum_spec (d : Nat) :
    ∀ (l : List (List ℚ)), (∀ e ∈ l, e.length = d) → l ≠ [] →
      (vecSum l).length = d ∧
      ∀ j, j < d → (vecSum l).getD j 0 = (l.map (fun e => e.getD j 0)).sum := by
  have hfold : ∀ (vs : List (List ℚ)) (acc : List ℚ), acc.length = d →
      (∀ e ∈ vs, e.length = d) →
      (vs.foldl vecAdd acc).length = d ∧
      ∀ j, j < d → (vs.foldl vecAdd acc).getD j 0 =
        acc.getD j 0 + (vs.map (fun e => e.getD j 0)).sum := by
    intro vs
    induction vs with
    | nil =>
      intro acc hacc hall
      exact ⟨hacc, fun j hj => by simp⟩
    | cons v vs ih =>
      intro acc hacc hall
      have hv : v.length = d := hall v (by simp)
      have hacc2 : (vecAdd acc v).length = d := by simp [vecAdd, hacc, hv]
      obtain ⟨ihl, ihg⟩ := ih (vecAdd acc v) hacc2
        (fun e he => hall e (by simp [he]))
      refine ⟨ihl, fun j hj => ?_⟩
      rw [List.foldl_cons, ihg j hj, vecAdd_getD acc v d j hacc hv hj]
      simp [add_assoc]
  intro l hl hne
  match l, hne with
  | v :: vs, _ =>
    have hv : v.length = d := hl v (by simp)
    obtain ⟨h1, h2⟩ := hfold vs v hv (fun e he => hl e (by simp [he]))
    refine ⟨h1, fun j hj => ?_⟩
    rw [show vecSum (v :: vs) = vs.foldl vecAdd v from rfl, h2 j hj]
    simp

/-- The elementwise mean has the common length and computes per-coordinate
sums divided by the count. -/
theorem meanVecs_spec (l : List (List ℚ)) (d : Nat)
    (hd : ∀ e ∈ l, e.length = d) (hne : l ≠ []) :
    (meanVecs l).length = d ∧
    ∀ j, j < d → (meanVecs l).getD j 0 =
      (l.map (fun e => e.getD j 0)).sum / (l.length : ℚ) := by
  obtain ⟨h1, h2⟩ := vecSum_spec d l hd hne
  have hml : (meanVecs l).length = d := by simp [meanVecs, h1]
  refine ⟨hml, fun j hj => ?_⟩
  rw [List.getD_eq_getElem _ _ (by omega)]
  simp only [meanVecs, List.getElem_map]
  rw [← List.getD_eq_getElem (vecSum l) 0 (by omega), h2 j hj]

/-- C6: a track created with one embedding and updated k more times holds
exactly the last min(FACE_TRACK_HISTORY, k+1) appended embeddings, its
history never exceeds the capacity, avg_embedding is their element-wise
arithmetic mean (per-coordinate sum divided by the count), and the average
is absent for a track id that is not in the store. -/
theorem avg_embedding_exact (tid : Nat) (c0 : ℚ × ℚ) (e0 b0 : List ℚ)
    (now0 : ℚ) (ups : List ((ℚ × ℚ) × List ℚ × List ℚ × ℚ)) (d : Nat)
    (hd : ∀ e ∈ e0 :: ups.map (fun u => u.2.1), e.length = d) :
    ((FaceTrack.init tid c0 e0 b0 now0).applyUpdates ups).embedding_history =
      (e0 :: ups.map (fun u => u.2.1)).drop
        ((e0 :: ups.map (fun u => u.2.1)).length - FACE_TRACK_HISTORY)
    ∧ ((FaceTrack.init tid c0 e0 b0 now0).applyUpdates
        ups).embedding_history.length =
        min (e0 :: ups.map (fun u => u.2.1)).length FACE_TRACK_HISTORY
    ∧ (∀ j, j < d →
        ((FaceTrack.init tid c0 e0 b0 now0).applyUpdates
            ups).avg_embedding.getD j 0 =
          (((e0 :: ups.map (fun u => u.2.1)).drop
              ((e0 :: ups.map (fun u => u.2.1)).length - FACE_TRACK_HISTORY)).map
            (fun e => e.getD j 0)).sum /
          ((((e0 :: ups.map (fun u => u.2.1)).drop
              ((e0 :: ups.map (fun u => u.2.1)).length
                - FACE_TRACK_HISTORY)).length : ℚ)))
    ∧ (∀ (tr : FaceTracker) (tid2 : Nat), tr.tracks.lookup tid2 = none →
        tr.get_avg_embedding tid2 = none) := by
  have hinit : (FaceTrack.init tid c0 e0 b0 now0).embedding_history = [e0] := rfl
  have hh := applyUpdates_history ups (FaceTrack.init tid c0 e0 b0 now0)
    (by rw [hinit]; simp [FACE_TRACK_HISTORY])
  rw [hinit] at hh
  have hsing : [e0] ++ ups.map (fun u => u.2.1) =
      e0 :: ups.map (fun u => u.2.1) := by simp
  rw [hsing] at hh
  have hlastlen :
      ((e0 :: ups.map (fun u => u.2.1)).drop
        ((e0 :: ups.map (fun u => u.2.1)).length - FACE_TRACK_HISTORY)).length =
      min (e0 :: ups.map (fun u => u.2.1)).length FACE_TRACK_HISTORY := by
    simp only [List.length_drop]
    omega
  refine ⟨hh, by rw [hh, hlastlen], ?_, ?_⟩
  · intro j hj
    have hdl : ∀ e ∈ (e0 :: ups.map (fun u => u.2.1)).drop
        ((e0 :: ups.map (fun u => u.2.1)).length - FACE_TRACK_HISTORY),
        e.length = d := fun e he => hd e (List.mem_of_mem_drop he)
    have hne2 : (e0 :: ups.map (fun u => u.2.1)).drop
        ((e0 :: ups.map (fun u => u.2.1)).length - FACE_TRACK_HISTORY) ≠ [] := by
      apply List.ne_nil_of_length_pos
      rw [hlastlen]
      simp [FACE_TRACK_HISTORY]
    obtain ⟨_, hm⟩ := meanVecs_spec _ d hdl hne2
    have hav : ((FaceTrack.init tid c0 e0 b0 now0).applyUpdates
        ups).avg_embedding = meanVecs (((FaceTrack.init tid c0 e0 b0
          now0).applyUpdates ups).embedding_history) := rfl
    rw [hav, hh]
    exact hm j hj
  · intro tr tid2 hl
    simp [FaceTracker.get_avg_embedding, hl]

/-- Ten one-dimensional embeddings 1..10 appended to one track: the history
holds exactly the last five and the average is (6+7+8+9+10)/5 = 8. -/
theorem avg_embedding_exact_witness :
    ((FaceTrack.init 1 (0, 0) [1] [0, 0, 0, 0] 0).applyUpdates
      [((0, 0), [2], [0, 0, 0, 0], 0), ((0, 0), [3], [0, 0, 0, 0], 0),
       ((0, 0), [4], [0, 0, 0, 0], 0), ((0, 0), [5], [0, 0, 0, 0], 0),
       ((0, 0), [6], [0, 0, 0, 0], 0), ((0, 0), [7], [0, 0, 0, 0], 0),
       ((0, 0), [8], [0, 0, 0, 0], 0), ((0, 0), [9], [0, 0, 0, 0], 0),
       ((0, 0), [10], [0, 0, 0, 0], 0)]).embedding_history =
      [[6], [7], [8], [9], [10]]
    ∧ ((FaceTrack.init 1 (0, 0) [1] [0, 0, 0, 0] 0).applyUpdates
      [((0, 0), [2], [0, 0, 0, 0], 0), ((0, 0), [3], [0, 0, 0, 0], 0),
       ((0, 0), [4], [0, 0, 0, 0], 0), ((0, 0), [5], [0, 0, 0, 0], 0),
       ((0, 0), [6], [0, 0, 0, 0], 0), ((0, 0), [7], [0, 0, 0, 0], 0),
       ((0, 0), [8], [0, 0, 0, 0], 0), ((0, 0), [9], [0, 0, 0, 0], 0),
       ((0, 0), [10], [0, 0, 0, 0], 0)]).avg_embedding.getD 0 0 = 8 := by
  have h := avg_embedding_exact 1 (0, 0) [1] [0, 0, 0, 0] 0
    [((0, 0), [2], [0, 0, 0, 0], 0), ((0, 0), [3], [0, 0, 0, 0], 0),
     ((0, 0), [4], [0, 0, 0, 0], 0), ((0, 0), [5], [0, 0, 0, 0], 0),
     ((0, 0), [6], [0, 0, 0, 0], 0), ((0, 0), [7], [0, 0, 0, 0], 0),
     ((0, 0), [8], [0, 0, 0, 0], 0), ((0, 0), [9], [0, 0, 0, 0], 0),
     ((0, 0), [10], [0, 0, 0, 0], 0)] 1 (by decide)
  constructor
  · rw [h.1]
    norm_num [FACE_TRACK_HISTORY]
  · have h3 := h.2.2.1 0 (by norm_num)
    rw [h3]
    norm_num [FACE_TRACK_HISTORY]

/-! ## Claim theorems: greedy matching, ids, exact-threshold detections -/

/-- C2: per detection in detector-return order the store matches the
not-yet-matched track with the strictly nearest centroid below the distance
bound (squared comparison; first minimizer wins ties, i.e. encounter
order); the default bound is 150; over a whole update call the matched ids
are duplicate-free (a track matches at most one detection) and there is one
binding per detection (a detection matches at most one track); and with
exactly two stored tracks both within the bound of a single detection, only
the nearer is matched and the farther entry survives unchanged. -/
theorem update_greedy_matching :
    (∀ (tracks : List (Nat × FaceTrack)) (used : List Nat) (c : ℚ × ℚ)
        (maxDist : ℚ) (m : Nat × FaceTrack),
        findMatch tracks used c maxDist = some m →
        m ∈ tracks ∧ m.1 ∉ used ∧ distSq c m.2.centroid < maxDist ^ 2 ∧
        (∀ q ∈ tracks, q.1 ∉ used →
          distSq c m.2.centroid ≤ distSq c q.2.centroid) ∧
        ∃ l1 l2, tracks = l1 ++ m :: l2 ∧
          ∀ q ∈ l1, q.1 ∉ used → distSq c m.2.centroid < distSq c q.2.centroid)
    ∧ (∀ (tracks : List (Nat × FaceTrack)) (used : List Nat) (c : ℚ × ℚ)
        (maxDist : ℚ),
        findMatch tracks used c maxDist = none ↔
          ∀ q ∈ tracks, q.1 ∉ used → maxDist ^ 2 ≤ distSq c q.2.centroid)
    ∧ FaceTracker.init.max_dist = 150
    ∧ (∀ (tr : FaceTracker) (faces : List FaceDet) (s now : ℚ), tr.WF →
        (tr.update faces s now).2.1.Nodup ∧
        (tr.update faces s now).2.2.length = faces.length)
    ∧ (∀ (tr : FaceTracker) (face : FaceDet) (s now : ℚ) (i1 i2 : Nat)
        (t1 t2 : FaceTrack),
        tr.tracks = [(i1, t1), (i2, t2)] → i1 ≠ i2 →
        distSq (bboxCentroid (detBBox face s)) t1.centroid <
          distSq (bboxCentroid (detBBox face s)) t2.centroid →
        distSq (bboxCentroid (detBBox face s)) t2.centroid < tr.max_dist ^ 2 →
        (tr.update [face] s now).2.2.map ParsedFace.track_id = [i1] ∧
        (tr.update [face] s now).1.tracks.lookup i2 = some t2) := by
  refine ⟨fun tracks used c maxDist m h => findMatch_some_spec tracks used c
      maxDist m h,
    fun tracks used c maxDist => findMatch_none_iff tracks used c maxDist,
    rfl, ?_, ?_⟩
  · intro tr faces s now hwf
    obtain ⟨_, _, w3, _, _, _, w7⟩ := updateGo_inv s now faces tr [] []
      hwf List.nodup_nil
    exact ⟨w3, by simpa using w7⟩
  · intro tr face s now i1 i2 t1 t2 htr hne h12 h2m
    have hd1 : distSq (bboxCentroid (detBBox face s)) t1.centroid <
        tr.max_dist ^ 2 := lt_trans h12 h2m
    have hnd2 : ¬ (distSq (bboxCentroid (detBBox face s)) t2.centroid <
        distSq (bboxCentroid (detBBox face s)) t1.centroid) :=
      not_lt.mpr (le_of_lt h12)
    have hfm : findMatch tr.tracks [] (bboxCentroid (detBBox face s))
        tr.max_dist = some (i1, t1) := by
      rw [htr]
      simp [findMatch, scanMatch, hd1, hnd2]
    have hstep := updateOne_matched tr [] face s now (i1, t1) hfm
    have hupd : tr.update [face] s now =
        ((tr.updateOne [] face s now).1, (tr.updateOne [] face s now).2.1,
          [(tr.updateOne [] face s now).2.2]) := rfl
    rw [hupd, hstep]
    refine ⟨by simp, ?_⟩
    rw [htr]
    have hne2 : ¬ (i2 = i1) := fun h => hne h.symm
    dsimp only
    have hrt : replaceTrack [(i1, t1), (i2, t2)] i1
        (t1.update (bboxCentroid (detBBox face s)) face.embedding
          (detBBox face s) now) =
        [(i1, t1.update (bboxCentroid (detBBox face s)) face.embedding
          (detBBox face s) now), (i2, t2)] := by
      simp [replaceTrack, hne2]
    rw [hrt]
    have hbeq : (i2 == i1) = false := beq_eq_false_iff_ne.mpr hne2
    simp [List.lookup, hbeq]

/-- Two tracks at (0,0) and (100,0), one detection with centroid (10,0):
both are inside the bound 150, the nearer track 1 is matched, and track 2
survives this call untouched. -/
theorem update_greedy_matching_witness :
    ((FaceTracker.mk 150 2
        [(1, FaceTrack.init 1 (0, 0) [1] [0, 0, 0, 0] 0),
         (2, FaceTrack.init 2 (100, 0) [2] [0, 0, 0, 0] 0)] 2).update
      [⟨[0, 0, 20, 0], [3], none, none⟩] 1 5).2.2.map ParsedFace.track_id = [1]
    ∧ (((FaceTracker.mk 150 2
        [(1, FaceTrack.init 1 (0, 0) [1] [0, 0, 0, 0] 0),
         (2, FaceTrack.init 2 (100, 0) [2] [0, 0, 0, 0] 0)] 2).update
      [⟨[0, 0, 20, 0], [3], none, none⟩] 1 5).1.tracks.lookup 2) =
      some (FaceTrack.init 2 (100, 0) [2] [0, 0, 0, 0] 0) := by
  exact update_greedy_matching.2.2.2.2
    (FaceTracker.mk 150 2
      [(1, FaceTrack.init 1 (0, 0) [1] [0, 0, 0, 0] 0),
       (2, FaceTrack.init 2 (100, 0) [2] [0, 0, 0, 0] 0)] 2)
    ⟨[0, 0, 20, 0], [3], none, none⟩ 1 5 1 2
    (FaceTrack.init 1 (0, 0) [1] [0, 0, 0, 0] 0)
    (FaceTrack.init 2 (100, 0) [2] [0, 0, 0, 0] 0)
    rfl (by decide)
    (by norm_num [distSq, bboxCentroid, detBBox, ratTrunc, FaceTrack.init])
    (by norm_num [distSq, bboxCentroid, detBBox, ratTrunc, FaceTrack.init])

/-- C7: track ids are strictly increasing across allocations and never
reused: update preserves well-formedness, never decreases the id counter,
and gives every detection that matched no existing unmatched track a fresh
id strictly above every previously allocated id; prune and clear never
touch the counter (so a removed id can never be reissued); and the
spec scenario — one face at centroid (100,100), then (110,105), then
(250,250), bound 150 — yields track ids 1, 1, 2. -/
theorem track_ids_monotone :
    (∀ (tr : FaceTracker) (faces : List FaceDet) (s now : ℚ), tr.WF →
        (tr.update faces s now).1.WF
        ∧ tr.id_counter ≤ (tr.update faces s now).1.id_counter
        ∧ (∀ p ∈ (tr.update faces s now).2.2,
            p.track_id ∉ tr.tracks.map Prod.fst → tr.id_counter < p.track_id))
    ∧ (∀ (tr : FaceTracker) (now : ℚ),
        (tr.prune_stale now).id_counter = tr.id_counter
        ∧ tr.clear.id_counter = tr.id_counter ∧ tr.clear.tracks = [])
    ∧ (FaceTracker.init.update [⟨[50, 50, 150, 150], [1], none, none⟩]
        1 0).2.2.map ParsedFace.track_id = [1]
    ∧ ((FaceTracker.init.update [⟨[50, 50, 150, 150], [1], none, none⟩]
        1 0).1.update [⟨[60, 55, 160, 155], [1], none, none⟩]
        1 0).2.2.map ParsedFace.track_id = [1]
    ∧ (((FaceTracker.init.update [⟨[50, 50, 150, 150], [1], none, none⟩]
        1 0).1.update [⟨[60, 55, 160, 155], [1], none, none⟩]
        1 0).1.update [⟨[200, 200, 300, 300], [1], none, none⟩]
        1 0).2.2.map ParsedFace.track_id = [2] := by
  refine ⟨?_, fun tr now => ⟨rfl, rfl, rfl⟩, ?_, ?_, ?_⟩
  · intro tr faces s now hwf
    obtain ⟨w1, w2, _, w4, _, w6, _⟩ := updateGo_inv s now faces tr [] []
      hwf List.nodup_nil
    refine ⟨w1, w2, ?_⟩
    intro p hp hnot
    rcases w6 p hp with h1 | h2
    · exact absurd h1 (List.not_mem_nil p)
    · rcases w4 p.track_id h2 with h3 | h4
      · exact absurd h3 hnot
      · exact h4
  all_goals
    norm_num [FaceTracker.update, FaceTracker.updateGo, FaceTracker.updateOne,
      FaceTracker.init, findMatch, scanMatch, detBBox, bboxCentroid, ratTrunc,
      distSq, FACE_TRACK_MAX_DIST, FaceTrack.init, FaceTrack.update,
      replaceTrack, dequeAppend]

/-- Concrete run of the id-freshness part: the two-track store with counter
2 stays well-formed after an update and the counter never decreases. -/
theorem track_ids_monotone_witness :
    ((FaceTracker.mk 150 2
        [(1, FaceTrack.init 1 (0, 0) [1] [0, 0, 0, 0] 0),
         (2, FaceTrack.init 2 (100, 0) [2] [0, 0, 0, 0] 0)] 2).update
      [⟨[0, 0, 20, 0], [3], none, none⟩] 1 5).1.WF
    ∧ 2 ≤ ((FaceTracker.mk 150 2
        [(1, FaceTrack.init 1 (0, 0) [1] [0, 0, 0, 0] 0),
         (2, FaceTrack.init 2 (100, 0) [2] [0, 0, 0, 0] 0)] 2).update
      [⟨[0, 0, 20, 0], [3], none, none⟩] 1 5).1.id_counter := by
  have h := track_ids_monotone.1
    (FaceTracker.mk 150 2
      [(1, FaceTrack.init 1 (0, 0) [1] [0, 0, 0, 0] 0),
       (2, FaceTrack.init 2 (100, 0) [2] [0, 0, 0, 0] 0)] 2)
    [⟨[0, 0, 20, 0], [3], none, none⟩] 1 5 (by constructor <;> decide)
  exact ⟨h.1, h.2.1⟩

/-- C9: the matching bound is strict — a detection at squared distance
exactly the squared bound from every unmatched track matches nothing, and
an update call with such a detection always allocates a fresh track with
the next id; the configured bound is 150. -/
theorem exact_threshold_no_match :
    (∀ (tracks : List (Nat × FaceTrack)) (used : List Nat) (c : ℚ × ℚ)
        (maxDist : ℚ),
        (∀ q ∈ tracks, q.1 ∉ used → distSq c q.2.centroid = maxDist ^ 2) →
        findMatch tracks used c maxDist = none)
    ∧ (∀ (tr : FaceTracker) (face : FaceDet) (s now : ℚ),
        (∀ q ∈ tr.tracks, distSq (bboxCentroid (detBBox face s)) q.2.centroid
          = tr.max_dist ^ 2) →
        (tr.update [face] s now).2.2.map ParsedFace.track_id =
          [tr.id_counter + 1]
        ∧ (tr.update [face] s now).1.id_counter = tr.id_counter + 1
        ∧ (tr.update [face] s now).1.tracks =
            tr.tracks ++ [(tr.id_counter + 1,
              FaceTrack.init (tr.id_counter + 1)
                (bboxCentroid (detBBox face s)) face.embedding
                (detBBox face s) now)])
    ∧ FACE_TRACK_MAX_DIST = 150 := by
  have hnone : ∀ (tracks : List (Nat × FaceTrack)) (used : List Nat)
      (c : ℚ × ℚ) (maxDist : ℚ),
      (∀ q ∈ tracks, q.1 ∉ used → distSq c q.2.centroid = maxDist ^ 2) →
      findMatch tracks used c maxDist = none := by
    intro tracks used c maxDist heq
    exact (findMatch_none_iff tracks used c maxDist).mpr
      (fun q hq hqu => le_of_eq (heq q hq hqu).symm)
  refine ⟨hnone, ?_, rfl⟩
  intro tr face s now heq
  have hfm : findMatch tr.tracks [] (bboxCentroid (detBBox face s))
      tr.max_dist = none :=
    hnone tr.tracks [] _ tr.max_dist (fun q hq _ => heq q hq)
  have hstep := updateOne_new tr [] face s now hfm
  have hupd : tr.update [face] s now =
      ((tr.updateOne [] face s now).1, (tr.updateOne [] face s now).2.1,
        [(tr.updateOne [] face s now).2.2]) := rfl
  rw [hupd, hstep]
  exact ⟨by simp, rfl, rfl⟩

/-! ## Real vector lemmas for the recognition index -/

theorem dotR_cons_cons (a b : ℝ) (u v : RVec) :
    dotR (a :: u) (b :: v) = a * b + dotR u v := by
  simp [dotR]

theorem normSqR_cons (a : ℝ) (u : RVec) :
    normSqR (a :: u) = a * a + normSqR u := by
  simp [normSqR, dotR]

theorem normSqR_nonneg (v : RVec) : 0 ≤ normSqR v := by
  induction v with
  | nil => simp [normSqR, dotR]
  | cons a u ih =>
    rw [normSqR_cons]
    nlinarith [mul_self_nonneg a]

theorem normalizeVec_length (v : RVec) : (normalizeVec v).length = v.length := by
  unfold normalizeVec
  split <;> simp

/-- The zero vector is left untouched by query normalization. -/
theorem normalizeVec_of_normSq_zero (v : RVec) (h : normSqR v = 0) :
    normalizeVec v = v := by
  have hn : normR v = 0 := by rw [normR, h, Real.sqrt_zero]
  simp [normalizeVec, hn]

theorem dotR_map_div (c : ℝ) :
    ∀ (u v : RVec), dotR (u.map (fun x => x / c)) v = dotR u v / c := by
  intro u
  induction u with
  | nil => intro v; simp [dotR]
  | cons a u ih =>
    intro v
    cases v with
    | nil => simp [dotR]
    | cons b v =>
      simp only [List.map_cons, dotR_cons_cons, ih]
      ring

/-- A query orthogonal to a row stays orthogonal after normalization. -/
theorem dotR_normalize_eq_zero (emb r : RVec) (h : dotR emb r = 0) :
    dotR (normalizeVec emb) r = 0 := by
  unfold normalizeVec
  split
  · rw [dotR_map_div, h, zero_div]
  · exact h

theorem two_mul_dotR_le (u : RVec) :
    ∀ v : RVec, 2 * dotR u v ≤ normSqR u + normSqR v := by
  induction u with
  | nil =>
    intro v
    have h0 : dotR [] v = 0 := rfl
    have h1 : normSqR ([] : RVec) = 0 := rfl
    have := normSqR_nonneg v
    rw [h0, h1]
    linarith
  | cons a u ih =>
    intro v
    cases v with
    | nil =>
      have h0 : dotR (a :: u) [] = 0 := rfl
      have h1 : normSqR ([] : RVec) = 0 := rfl
      rw [h0, h1]
      linarith [normSqR_nonneg (a :: u)]
    | cons b v =>
      have h1 := ih v
      have h2 : 2 * (a * b) ≤ a * a + b * b := by nlinarith [sq_nonneg (a - b)]
      rw [dotR_cons_cons, normSqR_cons, normSqR_cons]
      linarith

/-- Cauchy-style bound needed for similarity 1.0: unit rows have inner
product at most 1. -/
theorem dotR_le_one (u v : RVec) (hu : normSqR u = 1) (hv : normSqR v = 1) :
    dotR u v ≤ 1 := by
  have := two_mul_dotR_le u v
  rw [hu, hv] at this
  linarith

theorem normSqR_sub (u : RVec) :
    ∀ v : RVec, u.length = v.length →
      normSqR (vecSubR u v) = normSqR u - 2 * dotR u v + normSqR v := by
  induction u with
  | nil =>
    intro v hv
    have : v = [] := by cases v <;> simp_all
    subst this
    simp [vecSubR, normSqR, dotR]
  | cons a u ih =>
    intro v hv
    cases v with
    | nil => simp at hv
    | cons b v =>
      have hlen : u.length = v.length := by simpa using hv
      have hsub : vecSubR (a :: u) (b :: v) = (a - b) :: vecSubR u v := rfl
      rw [hsub, normSqR_cons, normSqR_cons, normSqR_cons, dotR_cons_cons,
        ih v hlen]
      ring

theorem normSqR_eq_zero_entries (w : RVec) (h : normSqR w = 0) :
    ∀ x ∈ w, x = 0 := by
  induction w with
  | nil => simp
  | cons a u ih =>
    rw [normSqR_cons] at h
    have ha : 0 ≤ a * a := mul_self_nonneg a
    have hu : 0 ≤ normSqR u := normSqR_nonneg u
    have ha0 : a = 0 := by nlinarith
    have hu0 : normSqR u = 0 := by nlinarith
    intro x hx
    rcases List.mem_cons.mp hx with rfl | hx2
    · exact ha0
    · exact ih hu0 x hx2

/-- Equality case of the similarity bound: two unit rows of one length with
inner product 1 are equal. -/
theorem eq_of_dotR_eq_one (u : RVec) :
    ∀ v : RVec, u.length = v.length → normSqR u = 1 → normSqR v = 1 →
      dotR u v = 1 → u = v := by
  intro v hlen hu hv hd
  have hz : normSqR (vecSubR u v) = 0 := by
    rw [normSqR_sub u v hlen, hu, hv, hd]
    ring
  have hent := normSqR_eq_zero_entries _ hz
  clear hz hu hv hd
  induction u generalizing v with
  | nil => cases v <;> simp_all
  | cons a u ih =>
    cases v with
    | nil => simp at hlen
    | cons b v =>
      have hab : a - b = 0 := hent (a - b) (by simp [vecSubR])
      have htail : ∀ x ∈ vecSubR u v, x = 0 := fun x hx =>
        hent x (by simp [vecSubR] at hx ⊢; right; exact hx)
      have := ih v (by simpa using hlen) htail
      have hab2 : a = b := by linarith
      rw [hab2, this]

/-! ## faiss top-1 search characterization -/

/-- The top-1 scan returns either the incumbent (nothing strictly beats it)
or the first row attaining the strict running maximum: all rows before it
score strictly less, all rows after it no more. -/
theorem searchAux_spec (q : RVec) :
    ∀ (l : List RVec) (k bi : Nat) (bs : ℝ),
      (searchAux q l k bi bs = (bi, bs) ∧ ∀ r ∈ l, dotR q r ≤ bs)
      ∨ (∃ l1 r l2, l = l1 ++ r :: l2 ∧
          searchAux q l k bi bs = (k + l1.length, dotR q r) ∧
          bs < dotR q r ∧
          (∀ x ∈ l1, dotR q x < dotR q r) ∧
          (∀ x ∈ l2, dotR q x ≤ dotR q r)) := by
  intro l
  induction l with
  | nil =>
    intro k bi bs
    left
    exact ⟨rfl, by simp⟩
  | cons x rest ih =>
    intro k bi bs
    by_cases hgt : dotR q x > bs
    · have hstep : searchAux q (x :: rest) k bi bs =
          searchAux q rest (k + 1) k (dotR q x) := by
        simp only [searchAux]
        rw [if_pos hgt]
      rcases ih (k + 1) k (dotR q x) with ⟨heq, hall⟩ |
        ⟨l1, r, l2, hsplit, heq, hlt, h1, h2⟩
      · right
        refine ⟨[], x, rest, rfl, ?_, hgt, by simp, hall⟩
        rw [hstep, heq]
        simp
      · right
        refine ⟨x :: l1, r, l2, by rw [hsplit, List.cons_append], ?_,
          lt_trans hgt hlt, ?_, h2⟩
        · rw [hstep, heq]
          congr 1
          simp
          omega
        · intro y hy
          rcases List.mem_cons.mp hy with rfl | hy2
          · exact hlt
          · exact h1 y hy2
    · have hstep : searchAux q (x :: rest) k bi bs =
          searchAux q rest (k + 1) bi bs := by
        simp only [searchAux]
        rw [if_neg hgt]
      rcases ih (k + 1) bi bs with ⟨heq, hall⟩ |
        ⟨l1, r, l2, hsplit, heq, hlt, h1, h2⟩
      · left
        refine ⟨?_, ?_⟩
        · rw [hstep, heq]
        · intro y hy
          rcases List.mem_cons.mp hy with rfl | hy2
          · exact not_lt.mp hgt
          · exact hall y hy2
      · right
        refine ⟨x :: l1, r, l2, by rw [hsplit, List.cons_append], ?_, hlt, ?_, h2⟩
        · rw [hstep, heq]
          congr 1
          simp
          omega
        · intro y hy
          rcases List.mem_cons.mp hy with rfl | hy2
          · exact lt_of_le_of_lt (not_lt.mp hgt) hlt
          · exact h1 y hy2

/-- Top-1 over a nonempty row set: the first row attaining the maximum
inner product, with its index. -/
theorem searchTop1_spec (refs : List RVec) (q : RVec) (hne : refs ≠ []) :
    ∃ l1 r l2, refs = l1 ++ r :: l2 ∧
      searchTop1 refs q = some (l1.length, dotR q r) ∧
      (∀ x ∈ refs, dotR q x ≤ dotR q r) ∧
      (∀ x ∈ l1, dotR q x < dotR q r) := by
  match refs, hne with
  | r0 :: rest, _ =>
    rcases searchAux_spec q rest 1 0 (dotR q r0) with ⟨heq, hall⟩ |
      ⟨l1, r, l2, hsplit, heq, hlt, h1, h2⟩
    · refine ⟨[], r0, rest, rfl, ?_, ?_, by simp⟩
      · show some (searchAux q rest 1 0 (dotR q r0)) = some (0, dotR q r0)
        rw [heq]
      · intro x hx
        rcases List.mem_cons.mp hx with rfl | hx2
        · exact le_refl _
        · exact hall x hx2
    · refine ⟨r0 :: l1, r, l2, by rw [hsplit, List.cons_append], ?_, ?_, ?_⟩
      · show some (searchAux q rest 1 0 (dotR q r0)) =
          some ((r0 :: l1).length, dotR q r)
        rw [heq]
        congr 2
        simp
        omega
      · intro x hx
        rcases List.mem_cons.mp hx with rfl | hx2
        · exact le_of_lt hlt
        · rw [hsplit] at hx2
          rcases List.mem_append.mp hx2 with hy | hy
          · exact le_of_lt (h1 x hy)
          · rcases List.mem_cons.mp hy with rfl | hy2
            · exact le_refl _
            · exact h2 x hy2
      · intro x hx
        rcases List.mem_cons.mp hx with rfl | hx2
        · exact hlt
        · exact h1 x hx2

/-- C1: query first L2-normalizes the input (a zero vector is untouched),
then returns the metadata of the single stored reference with the highest
inner-product similarity exactly when that similarity strictly exceeds the
threshold and none otherwise (ties broken toward the first row); a query
equal post-normalization to a stored reference attains similarity 1.0 and
(for any threshold below 1, e.g. the default 0.48) returns the metadata at
the index of a row equal to the normalized query; a query orthogonal to
every stored reference returns none for every threshold > 0.  The
hypotheses are the Recognition Index snapshot invariants: a nonempty
index aligned with its metadata whose rows are unit-norm vectors of the
query dimension (512 in the source). -/
theorem recognize_face_query (st : IndexerState) (refs : List RVec)
    (emb : RVec) (t : ℝ)
    (hidx : st.faiss_index = some refs) (hne : refs ≠ [])
    (hlen : refs.length = st.faiss_mapping.length)
    (hunit : ∀ r ∈ refs, normSqR r = 1)
    (hdim : ∀ r ∈ refs, r.length = emb.length) :
    (∀ v : RVec, normSqR v = 0 → normalizeVec v = v)
    ∧ (∃ l1 r l2, refs = l1 ++ r :: l2 ∧
        (∀ x ∈ refs, dotR (normalizeVec emb) x ≤ dotR (normalizeVec emb) r) ∧
        (∀ x ∈ l1, dotR (normalizeVec emb) x < dotR (normalizeVec emb) r) ∧
        recognize_face st emb t =
          (if dotR (normalizeVec emb) r > t then
            st.faiss_mapping.get? l1.length else none) ∧
        (dotR (normalizeVec emb) r > t →
          ∃ m, recognize_face st emb t = some m))
    ∧ (normalizeVec emb ∈ refs → t < 1 →
        ∃ l1 r l2, refs = l1 ++ r :: l2 ∧ r = normalizeVec emb ∧
          dotR (normalizeVec emb) r = 1 ∧
          recognize_face st emb t = st.faiss_mapping.get? l1.length ∧
          ∃ m, recognize_face st emb t = some m)
    ∧ ((∀ r ∈ refs, dotR emb r = 0) → 0 < t →
        recognize_face st emb t = none) := by
  have hemp : refs.isEmpty = false := by
    cases refs with
    | nil => exact absurd rfl hne
    | cons a l => rfl
  obtain ⟨l1, r, l2, hsplit, hs2, hmax, hfirst⟩ :=
    searchTop1_spec refs (normalizeVec emb) hne
  have hrmem : r ∈ refs := by rw [hsplit]; simp
  have hrec : recognize_face st emb t =
      (if dotR (normalizeVec emb) r > t then
        st.faiss_mapping.get? l1.length else none) := by
    simp [recognize_face, hidx, hemp, hs2]
  have hj : l1.length < st.faiss_mapping.length := by
    rw [← hlen, hsplit]
    simp
  have hget : ∃ m, st.faiss_mapping.get? l1.length = some m := by
    rw [List.get?_eq_get hj]
    exact ⟨_, rfl⟩
  refine ⟨fun v hv => normalizeVec_of_normSq_zero v hv, ?_, ?_, ?_⟩
  · refine ⟨l1, r, l2, hsplit, hmax, hfirst, hrec, fun hgt => ?_⟩
    obtain ⟨m, hm⟩ := hget
    exact ⟨m, by rw [hrec, if_pos hgt, hm]⟩
  · intro hq ht1
    have hq1 : normSqR (normalizeVec emb) = 1 := hunit _ hq
    have hle : dotR (normalizeVec emb) r ≤ 1 :=
      dotR_le_one _ _ hq1 (hunit r hrmem)
    have hself : dotR (normalizeVec emb) (normalizeVec emb) = 1 := hq1
    have hge : (1 : ℝ) ≤ dotR (normalizeVec emb) r := by
      rw [← hself]
      exact hmax _ hq
    have hone : dotR (normalizeVec emb) r = 1 := le_antisymm hle hge
    have hlen2 : (normalizeVec emb).length = r.length := by
      rw [normalizeVec_length, hdim r hrmem]
    have hreq : normalizeVec emb = r :=
      eq_of_dotR_eq_one _ _ hlen2 hq1 (hunit r hrmem) hone
    obtain ⟨m, hm⟩ := hget
    refine ⟨l1, r, l2, hsplit, hreq.symm, hone, ?_, m, ?_⟩
    · rw [hrec, if_pos (by rw [hone]; exact ht1)]
    · rw [hrec, if_pos (by rw [hone]; exact ht1), hm]
  · intro horth htpos
    have hz : dotR (normalizeVec emb) r = 0 :=
      dotR_normalize_eq_zero emb r (horth r hrmem)
    rw [hrec, if_neg (by rw [hz]; exact not_lt.mpr (le_of_lt htpos))]

/-- Concrete index with unit rows (1,0) and (0,1): the query (1,0) at the
default threshold 0.48 returns a match, and the query (0,0), orthogonal to
both rows, returns none at threshold 0.3. -/
theorem recognize_face_query_witness :
    (∃ m, recognize_face
      (IndexerState.mk (some [[1, 0], [0, 1]])
        [Meta.mk "A1" "Alice" "Low" "p" "a" "",
         Meta.mk "B1" "Bob" "High" "p" "a" ""]) [1, 0] 0.48 = some m)
    ∧ recognize_face
      (IndexerState.mk (some [[1, 0], [0, 1]])
        [Meta.mk "A1" "Alice" "Low" "p" "a" "",
         Meta.mk "B1" "Bob" "High" "p" "a" ""]) [0, 0] 0.3 = none := by
  have hunit : ∀ r ∈ [[(1 : ℝ), 0], [0, 1]], normSqR r = 1 := by
    intro r hr
    rcases List.mem_cons.mp hr with rfl | hr2
    · norm_num [normSqR, dotR]
    · rcases List.mem_singleton.mp hr2 with rfl
      norm_num [normSqR, dotR]
  constructor
  · have hdim : ∀ r ∈ [[(1 : ℝ), 0], [0, 1]], r.length = ([(1 : ℝ), 0]).length := by
      intro r hr
      rcases List.mem_cons.mp hr with rfl | hr2
      · rfl
      · rcases List.mem_singleton.mp hr2 with rfl
        rfl
    have h := recognize_face_query
      (IndexerState.mk (some [[1, 0], [0, 1]])
        [Meta.mk "A1" "Alice" "Low" "p" "a" "",
         Meta.mk "B1" "Bob" "High" "p" "a" ""])
      [[1, 0], [0, 1]] [1, 0] 0.48 rfl (by simp) rfl hunit hdim
    have hnsq : normSqR [(1 : ℝ), 0] = 1 := by norm_num [normSqR, dotR]
    have hnr : normR [(1 : ℝ), 0] = 1 := by rw [normR, hnsq, Real.sqrt_one]
    have hnv : normalizeVec [(1 : ℝ), 0] = [1, 0] := by
      rw [normalizeVec, if_pos (by rw [hnr]; norm_num)]
      rw [hnr]
      norm_num
    obtain ⟨_, _, _, _, _, _, _, m, hm⟩ :=
      h.2.2.1 (by rw [hnv]; simp) (by norm_num)
    exact ⟨m, hm⟩
  · have hdim : ∀ r ∈ [[(1 : ℝ), 0], [0, 1]], r.length = ([(0 : ℝ), 0]).length := by
      intro r hr
      rcases List.mem_cons.mp hr with rfl | hr2
      · rfl
      · rcases List.mem_singleton.mp hr2 with rfl
        rfl
    have h := recognize_face_query
      (IndexerState.mk (some [[1, 0], [0, 1]])
        [Meta.mk "A1" "Alice" "Low" "p" "a" "",
         Meta.mk "B1" "Bob" "High" "p" "a" ""])
      [[1, 0], [0, 1]] [0, 0] 0.3 rfl (by simp) rfl hunit hdim
    refine h.2.2.2 ?_ (by norm_num)
    intro r hr
    rcases List.mem_cons.mp hr with rfl | hr2
    · norm_num [dotR]
    · rcases List.mem_singleton.mp hr2 with rfl
      norm_num [dotR]

/-- C10: recognize_face is read-only: for every index state, query and
threshold the state-threading embedding of the method returns the state and
the caller's embedding array exactly as given, together with the pure query
result (the normalization builds a new array instead of dividing the
caller's in place, and no attribute is ever assigned). -/
theorem recognize_face_readonly (st : IndexerState) (embedding : RVec)
    (threshold : ℝ) :
    recognize_face_run st embedding threshold =
      (recognize_face st embedding threshold, st, embedding) := by
  cases hidx : st.faiss_index with
  | none => simp [recognize_face_run, recognize_face, hidx]
  | some refs =>
    by_cases he : refs.isEmpty
    · simp [recognize_face_run, recognize_face, hidx, he]
    · cases hs : searchTop1 refs (normalizeVec embedding) with
      | none => simp [recognize_face_run, recognize_face, hidx, he, hs]
      | some p =>
        obtain ⟨i, s⟩ := p
        simp [recognize_face_run, recognize_face, hidx, he, hs]

/-! ## Profile store upsert lemmas and enrollment -/

theorem lookup_map_replace (aadhar : String) (p : StoredProfile) :
    ∀ (store : ProfileStore),
      ((store.map (fun q => if q.1 = aadhar then (aadhar, p) else q)).lookup
        aadhar) = (store.lookup aadhar).map (fun _ => p) := by
  intro store
  induction store with
  | nil => rfl
  | cons q rest ih =>
    by_cases hq : q.1 = aadhar
    · have hb : (aadhar == q.1) = true := beq_iff_eq.mpr hq.symm
      simp only [List.map_cons]
      rw [if_pos hq]
      simp [List.lookup, hb]
    · have hb : (aadhar == q.1) = false :=
        beq_eq_false_iff_ne.mpr (fun h => hq h.symm)
      simp only [List.map_cons]
      rw [if_neg hq]
      simp [List.lookup, hb, ih]

theorem lookup_map_replace_other (aadhar a2 : String) (p : StoredProfile)
    (hne : a2 ≠ aadhar) :
    ∀ (store : ProfileStore),
      ((store.map (fun q => if q.1 = aadhar then (aadhar, p) else q)).lookup
        a2) = store.lookup a2 := by
  intro store
  induction store with
  | nil => rfl
  | cons q rest ih =>
    by_cases hq : q.1 = aadhar
    · have hb1 : (a2 == aadhar) = false := beq_eq_false_iff_ne.mpr hne
      have hb2 : (a2 == q.1) = false := by rw [hq]; exact hb1
      simp only [List.map_cons]
      rw [if_pos hq]
      simp [List.lookup, hb1, hb2, ih]
    · by_cases h2 : a2 = q.1
      · have hb : (a2 == q.1) = true := beq_iff_eq.mpr h2
        simp only [List.map_cons]
        rw [if_neg hq]
        simp [List.lookup, hb]
      · have hb : (a2 == q.1) = false := beq_eq_false_iff_ne.mpr h2
        simp only [List.map_cons]
        rw [if_neg hq]
        simp [List.lookup, hb, ih]

theorem lookup_append_none (a : String) :
    ∀ (l1 l2 : ProfileStore), l1.lookup a = none →
      (l1 ++ l2).lookup a = l2.lookup a := by
  intro l1
  induction l1 with
  | nil => intro l2 _; rfl
  | cons q rest ih =>
    intro l2 h
    cases hbv : (a == q.1) with
    | true =>
      exfalso
      have hsome : List.lookup a (q :: rest) = some q.2 := by
        simp [List.lookup, hbv]
      rw [h] at hsome
      exact Option.noConfusion hsome
    | false =>
      have ht : List.lookup a rest = none := by
        have hsk : List.lookup a (q :: rest) = List.lookup a rest := by
          simp [List.lookup, hbv]
        rw [← hsk]
        exact h
      have hcons : (q :: rest) ++ l2 = q :: (rest ++ l2) := rfl
      rw [hcons]
      have hstep : List.lookup a (q :: (rest ++ l2)) =
          List.lookup a (rest ++ l2) := by
        simp [List.lookup, hbv]
      rw [hstep]
      exact ih l2 ht

theorem lookup_append_singleton_other (a2 aadhar : String) (p : StoredProfile)
    (hne : a2 ≠ aadhar) :
    ∀ (store : ProfileStore),
      (store ++ [(aadhar, p)]).lookup a2 = store.lookup a2 := by
  intro store
  induction store with
  | nil =>
    have hb : (a2 == aadhar) = false := beq_eq_false_iff_ne.mpr hne
    simp [List.lookup, hb]
  | cons q rest ih =>
    by_cases hb : (a2 == q.1) = true
    · simp [List.lookup, hb]
    · have hb2 : (a2 == q.1) = false := by
        cases hbv : (a2 == q.1) with
        | true => exact absurd hbv hb
        | false => rfl
      simp [List.lookup, hb2, ih]

theorem upsertProfile_lookup_self (store : ProfileStore) (aadhar : String)
    (p : StoredProfile) :
    (upsertProfile store aadhar p).lookup aadhar = some p := by
  unfold upsertProfile
  split
  case isTrue h =>
    rw [lookup_map_replace]
    obtain ⟨v, hv⟩ := Option.isSome_iff_exists.mp h
    rw [hv]
    rfl
  case isFalse h =>
    have hnone : store.lookup aadhar = none :=
      Option.not_isSome_iff_eq_none.mp h
    rw [lookup_append_none aadhar store _ hnone]
    simp [List.lookup]

theorem upsertProfile_lookup_other (store : ProfileStore)
    (aadhar a2 : String) (p : StoredProfile) (hne : a2 ≠ aadhar) :
    (upsertProfile store aadhar p).lookup a2 = store.lookup a2 := by
  unfold upsertProfile
  split
  · exact lookup_map_replace_other aadhar a2 p hne store
  · exact lookup_append_singleton_other a2 aadhar p hne store

/-- C8: enrollment with zero detected faces raises the no-faces validation
error and with two or more faces raises the distinct multiple-faces
validation error, in both cases returning the profile store and index state
exactly as given (no partial write); with exactly one face the profile is
upserted under its unique id — the id maps to the new profile and every
other id is untouched — and the index is rebuilt from the updated store. -/
theorem enroll_face_validation :
    (∀ (aadhar name threat_level phone address thumb : String)
        (store : ProfileStore) (idx : IndexerState),
        enroll_face [] aadhar name threat_level phone address thumb store idx
          = (Except.error EnrollError.noFaces, store, idx))
    ∧ (∀ (faces : List EnrollFace) (aadhar name threat_level phone address
          thumb : String) (store : ProfileStore) (idx : IndexerState),
        2 ≤ faces.length →
        enroll_face faces aadhar name threat_level phone address thumb store
          idx = (Except.error EnrollError.multipleFaces, store, idx))
    ∧ EnrollError.noFaces ≠ EnrollError.multipleFaces
    ∧ (∀ (f : EnrollFace) (aadhar name threat_level phone address thumb :
          String) (store : ProfileStore) (idx : IndexerState),
        enroll_face [f] aadhar name threat_level phone address thumb store idx
          = (Except.ok (),
             upsertProfile store aadhar
               ⟨name, threat_level, phone, address, f.embedding, thumb⟩,
             update_index (storeDocs (upsertProfile store aadhar
               ⟨name, threat_level, phone, address, f.embedding, thumb⟩))))
    ∧ (∀ (store : ProfileStore) (aadhar : String) (p : StoredProfile),
        (upsertProfile store aadhar p).lookup aadhar = some p
        ∧ ∀ a2, a2 ≠ aadhar →
            (upsertProfile store aadhar p).lookup a2 = store.lookup a2) := by
  refine ⟨fun _ _ _ _ _ _ _ _ => rfl, ?_, by decide,
    fun _ _ _ _ _ _ _ _ _ => rfl,
    fun store aadhar p => ⟨upsertProfile_lookup_self store aadhar p,
      fun a2 h => upsertProfile_lookup_other store aadhar a2 p h⟩⟩
  intro faces aadhar name threat_level phone address thumb store idx h
  match faces, h with
  | a :: b :: t, _ => rfl

/-- Concrete enrollment runs on an empty store: zero faces and two faces
fail with the two distinct errors and leave the store and index untouched;
one face lands the profile under its id. -/
theorem enroll_face_validation_witness :
    enroll_face [] "A" "N" "Low" "" "" "" [] (IndexerState.mk none [])
      = (Except.error EnrollError.noFaces, [], IndexerState.mk none [])
    ∧ enroll_face [⟨[1]⟩, ⟨[2]⟩] "A" "N" "Low" "" "" "" []
        (IndexerState.mk none [])
      = (Except.error EnrollError.multipleFaces, [], IndexerState.mk none [])
    ∧ (upsertProfile [] "A" ⟨"N", "Low", "", "", [1], ""⟩).lookup "A"
      = some ⟨"N", "Low", "", "", [1], ""⟩ := by
  refine ⟨enroll_face_validation.1 "A" "N" "Low" "" "" "" [] _,
    enroll_face_validation.2.1 [⟨[1]⟩, ⟨[2]⟩] "A" "N" "Low" "" "" "" [] _
      (by simp),
    (enroll_face_validation.2.2.2.2 [] "A" ⟨"N", "Low", "", "", [1], ""⟩).1⟩

/-- Concrete run: one track at (0,0) and a detection with centroid (150,0),
distance exactly the bound 150: a fresh track 2 is created. -/
theorem exact_threshold_no_match_witness :
    ((FaceTracker.mk 150 2 [(1, FaceTrack.init 1 (0, 0) [1] [0, 0, 0, 0] 0)]
        1).update [⟨[100, 0, 200, 0], [3], none, none⟩] 1 5).2.2.map
      ParsedFace.track_id = [2]
    ∧ ((FaceTracker.mk 150 2 [(1, FaceTrack.init 1 (0, 0) [1] [0, 0, 0, 0] 0)]
        1).update [⟨[100, 0, 200, 0], [3], none, none⟩] 1 5).1.id_counter = 2 := by
  have h := exact_threshold_no_match.2.1
    (FaceTracker.mk 150 2 [(1, FaceTrack.init 1 (0, 0) [1] [0, 0, 0, 0] 0)] 1)
    ⟨[100, 0, 200, 0], [3], none, none⟩ 1 5
    (by
      intro q hq
      rcases List.mem_singleton.mp hq with rfl
      norm_num [distSq, bboxCentroid, detBBox, ratTrunc, FaceTrack.init])
  exact ⟨h.1, h.2.1⟩

end Ryuk
